import Mathlib

/-!
Verification of the marty monorepo-management core.

This development shallowly embeds the Rust sources of the repository
(crates/core) into Lean 4 and proves or refutes the frozen specification
claims against the embedding.  Embedded modules:

* `crates/core/src/plugin_cache.rs`  — option validation against a plugin's
  JSON schema, plugin name resolution, and the download cache keyed by a
  SHA-256 hash of the source URL.
* `crates/core/src/workspace.rs`     — dependency-graph construction, cycle
  storage, and recursive dependency resolution.
* `crates/core/src/execution/dependencies.rs` — topological level grouping.
* `crates/core/src/execution/runner.rs`       — task execution.
* `crates/core/src/task_execution.rs`         — tag-based compatibility and
  execution planning.

Modelling conventions: machine integers are `Nat` with explicit reduction
modulo 2^32 where the Rust code relies on wrapping 32-bit arithmetic
(SHA-256 only); filesystem contents that the code reads (a project's
`marty.yml`) are inlined into the project value as already-parsed data;
dynamic-library loading is abstracted as an `Except`-valued outcome that is
passed in; loops whose termination is data-dependent use an explicit fuel
that provably exceeds the iteration count.
-/

namespace Marty

/-- Decidable equality for `Except`, used to evaluate the embedding on
concrete inputs. -/
instance {ε α : Type} [DecidableEq ε] [DecidableEq α] :
    DecidableEq (Except ε α) := fun x y =>
  match x, y with
  | .ok a, .ok b =>
      if h : a = b then isTrue (by rw [h])
      else isFalse (by intro hh; cases hh; exact h rfl)
  | .error a, .error b =>
      if h : a = b then isTrue (by rw [h])
      else isFalse (by intro hh; cases hh; exact h rfl)
  | .ok _, .error _ => isFalse (by intro hh; cases hh)
  | .error _, .ok _ => isFalse (by intro hh; cases hh)

/-! ## JSON values (serde_json::Value) -/

/-- Shallow model of `serde_json::Value`.  Objects are association lists in
map-iteration order; `num` carries an integer payload (validation only ever
inspects the type tag, never the numeric value). -/
inductive Json where
  | str (s : String)
  | num (n : Int)
  | bool (b : Bool)
  | arr (elems : List Json)
  | obj (fields : List (String × Json))
  | null

/-- The JSON type name the validator reports for a value
(`plugin_cache.rs` lines 162-169). -/
def Json.typeName : Json → String
  | .str _ => "string"
  | .num _ => "number"
  | .bool _ => "boolean"
  | .arr _ => "array"
  | .obj _ => "object"
  | .null => "null"

/-- `Map::get` on a JSON object. -/
def lookupField (fields : List (String × Json)) (key : String) : Option Json :=
  (fields.find? (fun f => f.1 = key)).map (·.2)

/-- `Value::as_object`. -/
def Json.asObj : Json → Option (List (String × Json))
  | .obj fields => some fields
  | _ => none

/-- serde_json character escaping used by `Value`'s `Display`. -/
def escapeChar (c : Char) : String :=
  if c = '"' then "\\\""
  else if c = '\\' then "\\\\"
  else if c = '\n' then "\\n"
  else if c = '\r' then "\\r"
  else if c = '\t' then "\\t"
  else if c.toNat = 8 then "\\b"
  else if c.toNat = 12 then "\\f"
  else if c.toNat < 32 then
    "\\u00" ++ String.singleton (Nat.digitChar (c.toNat / 16)) ++
      String.singleton (Nat.digitChar (c.toNat % 16))
  else String.singleton c

def escapeString (s : String) : String :=
  String.join (s.data.map escapeChar)

mutual

/-- Compact rendering of a JSON value (`serde_json::Value`'s `Display`),
used when an error message embeds a value. -/
def Json.render : Json → String
  | .str s => "\"" ++ escapeString s ++ "\""
  | .num n => toString n
  | .bool b => if b then "true" else "false"
  | .null => "null"
  | .arr elems => "[" ++ String.intercalate "," (renderList elems) ++ "]"
  | .obj fields =>
      "\x7b" ++ String.intercalate "," (renderFields fields) ++ "\x7d"

def renderList : List Json → List String
  | [] => []
  | v :: rest => Json.render v :: renderList rest

def renderFields : List (String × Json) → List String
  | [] => []
  | (k, v) :: rest =>
      ("\"" ++ escapeString k ++ "\":" ++ Json.render v) :: renderFields rest

end

/-! ## Plugin option validation (`plugin_cache.rs` lines 107-193) -/

/-- First options key rejected by the `additionalProperties: false` loop
(`plugin_cache.rs` lines 143-152): the first key, in iteration order, that
is not a key of `properties`. -/
def firstUnknownKey (properties : List (String × Json)) :
    List (String × Json) → Option String
  | [] => none
  | (k, _) :: rest =>
      if properties.any (fun p => p.1 = k) then firstUnknownKey properties rest
      else some k

/-- First `(key, expected type, actual type)` triple rejected by the
per-property type loop (`plugin_cache.rs` lines 157-182). -/
def firstTypeMismatch (properties : List (String × Json)) :
    List (String × Json) → Option (String × String × String)
  | [] => none
  | (k, v) :: rest =>
      match (lookupField properties k).bind Json.asObj with
      | some propSchema =>
          match lookupField propSchema "type" with
          | some (.str expected) =>
              if expected ≠ v.typeName then some (k, expected, v.typeName)
              else firstTypeMismatch properties rest
          | _ => firstTypeMismatch properties rest
      | none => firstTypeMismatch properties rest

def unsupportedOptionMessage (pluginName key : String)
    (properties : List (String × Json)) : String :=
  "Plugin '" ++ pluginName ++ "' does not support option '" ++ key ++
    "'. Valid options are: " ++ String.intercalate ", " (properties.map (·.1))

def typeMismatchMessage (pluginName key expected actual : String) : String :=
  "Plugin '" ++ pluginName ++ "' option '" ++ key ++ "' expects type '" ++
    expected ++ "', got '" ++ actual ++ "'"

def optionsNotObjectMessage (pluginName : String) (options : Json) : String :=
  "Plugin '" ++ pluginName ++ "' options must be an object, got " ++
    options.render

/-- `PluginCache::validate_options_against_schema`
(`plugin_cache.rs` lines 130-193). -/
def validateOptionsAgainstSchema (options schema : Json)
    (pluginName : String) : Except String Unit :=
  match schema.asObj with
  | some schemaObj =>
      match (lookupField schemaObj "properties").bind Json.asObj with
      | some properties =>
          match options.asObj with
          | some optionsObj =>
              match (match lookupField schemaObj "additionalProperties" with
                     | some (.bool false) => firstUnknownKey properties optionsObj
                     | _ => none) with
              | some k => .error (unsupportedOptionMessage pluginName k properties)
              | none =>
                  match firstTypeMismatch properties optionsObj with
                  | some (k, exp, act) =>
                      .error (typeMismatchMessage pluginName k exp act)
                  | none => .ok ()
          | none => .error (optionsNotObjectMessage pluginName options)
      | none => .ok ()
  | none => .ok ()

/-- The observable state of a successfully loaded dynamic-library plugin:
its reported name and its configuration schema
(`DylibWorkspaceProvider` surface used by `plugin_cache.rs`). -/
structure DylibPlugin where
  name : String
  configurationOptions : Option Json

/-- `PluginCache::validate_plugin_options` (`plugin_cache.rs` lines 107-127):
no declared schema means validation is skipped. -/
def validatePluginOptions (plugin : DylibPlugin) (options : Json) :
    Except String Unit :=
  match plugin.configurationOptions with
  | some schemaValue => validateOptionsAgainstSchema options schemaValue plugin.name
  | none => .ok ()

/-- `PluginCache::load_plugin_and_get_name` (`plugin_cache.rs` lines 85-88).
The dynamic-library load itself is abstracted as the `Except`-valued
argument `loadResult`. -/
def loadPluginAndGetName (loadResult : Except String DylibPlugin) :
    Except String String :=
  loadResult.map (·.name)

/-- `PluginCache::load_plugin_and_validate_options`
(`plugin_cache.rs` lines 91-104). -/
def loadPluginAndValidateOptions (loadResult : Except String DylibPlugin)
    (options : Option Json) : Except String String :=
  match loadResult with
  | .error e => .error e
  | .ok plugin =>
      match options with
      | some optionsValue =>
          match validatePluginOptions plugin optionsValue with
          | .error e => .error e
          | .ok _ => .ok plugin.name
      | none => .ok plugin.name

structure CachedPlugin where
  name : String
  path : String
  url : Option String
  enabled : Bool
  options : Option Json

/-- The warning printed to stderr when `load_plugin_and_validate_options`
fails (`plugin_cache.rs` lines 254-258). -/
def validationWarning (tempName errMsg : String) : String :=
  "Warning: Failed to validate plugin options for '" ++ tempName ++ "': " ++
    errMsg

/-- The `unwrap_or_else` fallback chain of `PluginCache::resolve_plugin`
(`plugin_cache.rs` lines 252-261): on any failure of
`load_plugin_and_validate_options` a warning is emitted and the plugin is
loaded again without option validation; if that also fails the derived
temporary name is used.  Returns the resolved name and the emitted
warnings. -/
def resolvePluginNameWithWarnings (loadResult : Except String DylibPlugin)
    (tempName : String) (options : Option Json) : String × List String :=
  match loadPluginAndValidateOptions loadResult options with
  | .ok n => (n, [])
  | .error e =>
      match loadPluginAndGetName loadResult with
      | .ok n => (n, [validationWarning tempName e])
      | .error _ => (tempName, [validationWarning tempName e])

/-- The direct-URL branch of `PluginCache::resolve_plugin`
(`plugin_cache.rs` lines 237-270) after a successful download: it always
returns `Ok`, pairing the cached plugin with the warnings emitted on the
error channel. -/
def resolvePluginUrlBranch (loadResult : Except String DylibPlugin)
    (cachedPath url tempName : String) (options : Option Json)
    (enabled : Bool) : Except String (CachedPlugin × List String) :=
  let r := resolvePluginNameWithWarnings loadResult tempName options
  .ok ({ name := r.1, path := cachedPath, url := some url,
         enabled := enabled, options := options }, r.2)


/-! ## SHA-256 (semantics of the `sha2` crate's `Sha256::digest`, FIPS 180-4)
used by `PluginCache::download_and_cache_plugin` (`plugin_cache.rs` line 401). -/

/-- Reduce to a 32-bit word. -/
def w32 (n : Nat) : Nat := n % 4294967296

/-- 32-bit rotate right. -/
def rotr32 (n x : Nat) : Nat := w32 ((x >>> n) ||| (x <<< (32 - n)))

def ch (x y z : Nat) : Nat := (x &&& y) ^^^ ((x ^^^ 4294967295) &&& z)

def maj (x y z : Nat) : Nat := (x &&& y) ^^^ (x &&& z) ^^^ (y &&& z)

def bigSigma0 (x : Nat) : Nat := rotr32 2 x ^^^ rotr32 13 x ^^^ rotr32 22 x

def bigSigma1 (x : Nat) : Nat := rotr32 6 x ^^^ rotr32 11 x ^^^ rotr32 25 x

def smallSigma0 (x : Nat) : Nat := rotr32 7 x ^^^ rotr32 18 x ^^^ (x >>> 3)

def smallSigma1 (x : Nat) : Nat := rotr32 17 x ^^^ rotr32 19 x ^^^ (x >>> 10)

/-- The SHA-256 round constants. -/
def sha256K : List Nat :=
  [1116352408, 1899447441, 3049323471, 3921009573,
   961987163, 1508970993, 2453635748, 2870763221,
   3624381080, 310598401, 607225278, 1426881987,
   1925078388, 2162078206, 2614888103, 3248222580,
   3835390401, 4022224774, 264347078, 604807628,
   770255983, 1249150122, 1555081692, 1996064986,
   2554220882, 2821834349, 2952996808, 3210313671,
   3336571891, 3584528711, 113926993, 338241895,
   666307205, 773529912, 1294757372, 1396182291,
   1695183700, 1986661051, 2177026350, 2456956037,
   2730485921, 2820302411, 3259730800, 3345764771,
   3516065817, 3600352804, 4094571909, 275423344,
   430227734, 506948616, 659060556, 883997877,
   958139571, 1322822218, 1537002063, 1747873779,
   1955562222, 2024104815, 2227730452, 2361852424,
   2428436474, 2756734187, 3204031479, 3329325298]

/-- The eight working state words. -/
structure Hash8 where
  a : Nat
  b : Nat
  c : Nat
  d : Nat
  e : Nat
  f : Nat
  g : Nat
  h : Nat

def initH : Hash8 :=
  ⟨1779033703, 3144134277, 1013904242, 2773480762,
   1359893119, 2600822924, 528734635, 1541459225⟩

/-- Big-endian byte rendering of a number into `k` bytes. -/
def toBytesBE : Nat → Nat → List Nat
  | 0, _ => []
  | k + 1, n => toBytesBE k (n / 256) ++ [n % 256]

/-- Big-endian 32-bit words from a byte list. -/
def toWordsBE : List Nat → List Nat
  | b0 :: b1 :: b2 :: b3 :: rest =>
      (b0 * 16777216 + b1 * 65536 + b2 * 256 + b3) :: toWordsBE rest
  | _ => []

/-- SHA-256 message padding. -/
def padMessage (msg : List Nat) : List Nat :=
  let len := msg.length
  let padLen := (64 - ((len + 9) % 64)) % 64
  msg ++ [128] ++ List.replicate padLen 0 ++ toBytesBE 8 (8 * len)

/-- Split into 64-byte blocks (fuel-indexed; the fuel is the list length,
which bounds the number of blocks). -/
def chunks64Fuel : Nat → List Nat → List (List Nat)
  | 0, _ => []
  | _, [] => []
  | fuel + 1, x :: xs => (x :: xs.take 63) :: chunks64Fuel fuel (xs.drop 63)

/-- Split into 64-byte blocks. -/
def chunks64 (xs : List Nat) : List (List Nat) := chunks64Fuel xs.length xs

def scheduleStep (ws : List Nat) : List Nat :=
  let n := ws.length
  ws ++ [w32 (smallSigma1 (ws.getD (n - 2) 0) + ws.getD (n - 7) 0 +
              smallSigma0 (ws.getD (n - 15) 0) + ws.getD (n - 16) 0)]

def buildSchedule : Nat → List Nat → List Nat
  | 0, ws => ws
  | k + 1, ws => buildSchedule k (scheduleStep ws)

/-- Extend the 16 block words to the 64 schedule words. -/
def messageSchedule (ws : List Nat) : List Nat := buildSchedule 48 ws

def sha256Round (s : Hash8) (k w : Nat) : Hash8 :=
  let t1 := w32 (s.h + bigSigma1 s.e + ch s.e s.f s.g + k + w)
  let t2 := w32 (bigSigma0 s.a + maj s.a s.b s.c)
  ⟨w32 (t1 + t2), s.a, s.b, s.c, w32 (s.d + t1), s.e, s.f, s.g⟩

def processBlock (h : Hash8) (block : List Nat) : Hash8 :=
  let ws := messageSchedule (toWordsBE block)
  let s := (sha256K.zip ws).foldl (fun st kw => sha256Round st kw.1 kw.2) h
  ⟨w32 (h.a + s.a), w32 (h.b + s.b), w32 (h.c + s.c), w32 (h.d + s.d),
   w32 (h.e + s.e), w32 (h.f + s.f), w32 (h.g + s.g), w32 (h.h + s.h)⟩

/-- SHA-256 digest (32 bytes) of a byte list. -/
def sha256Bytes (msg : List Nat) : List Nat :=
  let fin := (chunks64 (padMessage msg)).foldl processBlock initH
  toBytesBE 4 fin.a ++ toBytesBE 4 fin.b ++ toBytesBE 4 fin.c ++
    toBytesBE 4 fin.d ++ toBytesBE 4 fin.e ++ toBytesBE 4 fin.f ++
    toBytesBE 4 fin.g ++ toBytesBE 4 fin.h

/-- Lowercase hexadecimal digit, as produced by Rust's `{:x}` formatting. -/
def hexDigitChar (n : Nat) : Char :=
  if n < 10 then Char.ofNat (48 + n) else Char.ofNat (87 + n)

def byteToHex (b : Nat) : String :=
  String.singleton (hexDigitChar (b / 16)) ++ String.singleton (hexDigitChar (b % 16))

def bytesToHex (bs : List Nat) : String := String.join (bs.map byteToHex)

/-- UTF-8 encoding of a single code point. -/
def utf8EncodeChar (c : Nat) : List Nat :=
  if c < 128 then [c]
  else if c < 2048 then [192 ||| (c >>> 6), 128 ||| (c &&& 63)]
  else if c < 65536 then
    [224 ||| (c >>> 12), 128 ||| ((c >>> 6) &&& 63), 128 ||| (c &&& 63)]
  else
    [240 ||| (c >>> 18), 128 ||| ((c >>> 12) &&& 63),
     128 ||| ((c >>> 6) &&& 63), 128 ||| (c &&& 63)]

/-- The UTF-8 bytes of a string (`str::as_bytes`). -/
def utf8Encode (s : String) : List Nat :=
  (s.data.map (fun c => utf8EncodeChar c.toNat)).flatten

/-- `format!("\x7b:x\x7d", Sha256::digest(url.as_bytes()))`
(`plugin_cache.rs` line 401). -/
def sha256HexOfString (s : String) : String :=
  bytesToHex (sha256Bytes (utf8Encode s))

/-! ## Plugin download cache (`plugin_cache.rs` lines 400-485) -/

/-- The `cfg!(target_os = ...)` chain of `download_and_cache_plugin`
(`plugin_cache.rs` lines 404-410). -/
def currentExtensionFor (os : String) : String :=
  if os = "windows" then "dll" else if os = "macos" then "dylib" else "so"

/-- The cache filename computed by `download_and_cache_plugin`
(`plugin_cache.rs` line 412): `format!("\x7b\x7d_\x7b\x7d.\x7b\x7d", name,
&url_hash[..8], extension)`. -/
def cacheFilenameFor (name url extension : String) : String :=
  name ++ "_" ++ (sha256HexOfString url).take 8 ++ "." ++ extension

/-- `PluginCache::download_and_cache_plugin` (`plugin_cache.rs` lines
400-485).  The cache directory's contents are the filename list
`cacheFiles`; the HTTP GET is abstracted as `fetch` (an error carries the
message built by the HTTP layer).  Returns the cached path, the new
directory contents, and whether a download happened. -/
def downloadAndCachePlugin (cacheDir : String) (cacheFiles : List String)
    (os : String) (name url : String) (fetch : Except String (List Nat)) :
    Except String (String × List String × Bool) :=
  let extension := currentExtensionFor os
  let cacheFilename := cacheFilenameFor name url extension
  let cachePath := cacheDir ++ "/" ++ cacheFilename
  if cacheFiles.contains cacheFilename then
    .ok (cachePath, cacheFiles, false)
  else
    match fetch with
    | .error e => .error e
    | .ok bytes =>
        if bytes.isEmpty then
          .error ("Downloaded file from " ++ url ++ " is empty")
        else
          .ok (cachePath, cacheFilename :: cacheFiles, true)


/-! ## Workspace and dependency graph (`workspace.rs`) -/

/-- A petgraph `DiGraph<String, ()>`: node weights in index order and the
directed edges `(from, to)` in insertion order.  An edge `P → dep` means "P
depends on dep" (`workspace.rs` line 139). -/
structure Graph where
  nodes : List String
  edges : List (Nat × Nat)
deriving DecidableEq

/-- Outgoing neighbors.  petgraph iterates a node's out-edges most recently
added first; only evaluations with at most one out-edge per node rely on
the order. -/
def Graph.neighborsOut (g : Graph) (v : Nat) : List Nat :=
  ((g.edges.filter (fun e => e.1 = v)).map (·.2)).reverse

/-- Incoming neighbors (used by the Kosaraju transpose pass). -/
def Graph.neighborsIn (g : Graph) (v : Nat) : List Nat :=
  ((g.edges.filter (fun e => e.2 = v)).map (·.1)).reverse

/-- petgraph `contains_edge`. -/
def Graph.containsEdge (g : Graph) (a b : Nat) : Bool :=
  g.edges.any (fun e => e.1 = a ∧ e.2 = b)

def Graph.nodeIndices (g : Graph) : List Nat := List.range g.nodes.length

/-- The parsed contents of a project's `marty.yml`.  The same file is read
as a `ProjectConfig` (for `tags`) by `is_project_compatible_with_task` and
as a `TasksFileConfig` (for task names) by `check_task_in_project`; both
parses are assumed to succeed and are inlined here (YAML parsing and file
IO are outside the model). -/
structure Manifest where
  tags : Option (List String)
  tasks : List String
deriving DecidableEq

/-- An explicit project (`marty_plugin_protocol::Project`): its name plus
the on-disk manifest, `none` when `marty.yml` does not exist. -/
structure Project where
  name : String
  manifest : Option Manifest
deriving DecidableEq

/-- `marty_plugin_protocol::InferredProject` (discovery metadata elided). -/
structure InferredProject where
  name : String
  workspaceDependencies : List String
deriving DecidableEq

/-- `workspace.rs`'s `Workspace`. -/
structure Workspace where
  projects : List Project
  inferredProjects : List InferredProject
  depGraph : Option Graph
  dependencyCycles : List (List String)
deriving DecidableEq

/-- The index a `HashMap<String, NodeIndex>` built by repeated `insert`
maps a name to: the index of the LAST node with that weight
(`workspace.rs` lines 122-125 and 195-198). -/
def lastIdxOf (nodes : List String) (name : String) : Option Nat :=
  (nodes.foldl
    (fun acc x => (if x = name then some acc.2 else acc.1, acc.2 + 1))
    ((none : Option Nat), 0)).1

/-- Edges contributed by one project's `workspace_dependencies`
(`workspace.rs` lines 137-147). -/
def edgesForDeps (nodes : List String) (projectName : String) (fromIdx : Nat) :
    List String → Except String (List (Nat × Nat))
  | [] => .ok []
  | dep :: rest =>
      match lastIdxOf nodes dep with
      | some toIdx =>
          match edgesForDeps nodes projectName fromIdx rest with
          | .ok es => .ok ((fromIdx, toIdx) :: es)
          | .error e => .error e
      | none =>
          .error ("Project '" ++ projectName ++ "' depends on '" ++ dep ++
            "' which was not found")

/-- The edge-building loop of `build_dependency_graph`
(`workspace.rs` lines 128-148).  A project's `from` node is looked up by
name (`node_indices[&project.name]`, always present since every project was
added as a node); a project with no matching inferred project is skipped. -/
def collectEdges (nodes : List String) (inferred : List InferredProject) :
    List Project → Except String (List (Nat × Nat))
  | [] => .ok []
  | p :: rest =>
      let fromIdx := (lastIdxOf nodes p.name).getD 0
      match inferred.find? (fun ip => ip.name = p.name) with
      | none => collectEdges nodes inferred rest
      | some ip =>
          match edgesForDeps nodes p.name fromIdx ip.workspaceDependencies with
          | .error e => .error e
          | .ok es =>
              match collectEdges nodes inferred rest with
              | .error e => .error e
              | .ok es2 => .ok (es ++ es2)

/-- DFS of the first Kosaraju pass, accumulating `(visited, finish order)`
with the most recently finished node at the head.  The fuel bounds the
recursion depth; `nodes.length + 1` suffices because every level of depth
past a call visits a new node. -/
def dfsFinishOrder (g : Graph) : Nat → Nat → List Nat × List Nat → List Nat × List Nat
  | 0, _, st => st
  | fuel + 1, v, st =>
      if st.1.contains v then st
      else
        let st1 := (v :: st.1, st.2)
        let st2 := (g.neighborsOut v).foldl
          (fun s u => dfsFinishOrder g fuel u s) st1
        (st2.1, v :: st2.2)

/-- Finish order of all nodes, latest finished first. -/
def kosarajuFinish (g : Graph) : List Nat :=
  (g.nodeIndices.foldl
    (fun st v => dfsFinishOrder g (g.nodes.length + 1) v st) ([], [])).2

/-- DFS on the transposed graph collecting one strongly connected
component; the state is `(assigned, current component)`. -/
def dfsCollectComp (g : Graph) : Nat → Nat → List Nat × List Nat → List Nat × List Nat
  | 0, _, st => st
  | fuel + 1, v, st =>
      if st.1.contains v then st
      else
        let st1 := (v :: st.1, v :: st.2)
        (g.neighborsIn v).foldl (fun s u => dfsCollectComp g fuel u s) st1

/-- Second Kosaraju pass over the finish order. -/
def sccFromOrder (g : Graph) : List Nat → List Nat → List (List Nat)
  | [], _ => []
  | v :: rest, assigned =>
      if assigned.contains v then sccFromOrder g rest assigned
      else
        let st := dfsCollectComp g (g.nodes.length + 1) v (assigned, [])
        st.2 :: sccFromOrder g rest st.1

/-- Strongly connected components (the semantics of petgraph's
`kosaraju_scc`; `build_dependency_graph` canonicalises every component by
sorting, so only the set of components matters downstream). -/
def kosarajuSCC (g : Graph) : List (List Nat) :=
  sccFromOrder g (kosarajuFinish g) []

/-- Executable lexicographic comparison of character lists (the order Rust
uses for `String`: byte-wise, which UTF-8 makes identical to code-point
lexicographic order). -/
def listCharLt : List Char → List Char → Bool
  | [], [] => false
  | [], _ :: _ => true
  | _ :: _, [] => false
  | a :: as, b :: bs =>
      if a < b then true else if b < a then false else listCharLt as bs

def strLtB (a b : String) : Bool := listCharLt a.data b.data

def strLeB (a b : String) : Bool := !(strLtB b a)

/-- `Vec::<String>::sort()` (a stable comparison sort; `String` order is
lexicographic). -/
def sortStrings (xs : List String) : List String :=
  List.insertionSort (fun a b => strLeB a b = true) xs

/-- Lexicographic order on `Vec<String>` (Rust `Ord` for vectors). -/
def listLexLe : List String → List String → Bool
  | [], _ => true
  | _ :: _, [] => false
  | x :: xs, y :: ys =>
      if strLtB x y then true else if strLtB y x then false else listLexLe xs ys

/-- `Vec::<Vec<String>>::sort()`. -/
def sortCycles (cs : List (List String)) : List (List String) :=
  List.insertionSort (fun a b => listLexLe a b = true) cs

/-- Turn one SCC into a stored cycle (`workspace.rs` lines 151-170):
components of size > 1 are cycles (sorted); a singleton is a cycle only
with a self-loop. -/
def cycleOfComponent (g : Graph) (comp : List Nat) : Option (List String) :=
  if comp.length > 1 then
    some (sortStrings (comp.map (fun v => g.nodes.getD v "")))
  else
    match comp with
    | [v] => if g.containsEdge v v then some [g.nodes.getD v ""] else none
    | _ => none

/-- The stored cycle list: per-component cycles, list sorted
(`workspace.rs` line 172). -/
def computeCycles (g : Graph) : List (List String) :=
  sortCycles ((kosarajuSCC g).filterMap (cycleOfComponent g))

/-- `build_dependency_graph` (`workspace.rs` lines 117-177), returning the
graph and the stored cycle list on success. -/
def buildDependencyGraph (projects : List Project)
    (inferred : List InferredProject) :
    Except String (Graph × List (List String)) :=
  let nodes := projects.map (·.name)
  match collectEdges nodes inferred projects with
  | .error e => .error e
  | .ok edges =>
      let graph : Graph := ⟨nodes, edges⟩
      .ok (graph, computeCycles graph)

/-- Target resolution (`workspace.rs` lines 201-211). -/
def resolveTargets (nodes : List String) : List String → Except String (List Nat)
  | [] => .ok []
  | t :: rest =>
      match lastIdxOf nodes t with
      | some idx =>
          match resolveTargets nodes rest with
          | .ok is => .ok (idx :: is)
          | .error e => .error e
      | none => .error ("Target project '" ++ t ++ "' not found in workspace")

/-- The BFS of `workspace.rs` lines 213-224 (queue, visited-set insert on
pop).  The fuel bounds the number of pops: every pop either skips a visited
node (at most once per enqueue) or visits a new node, and total enqueues
are the start nodes plus at most one push per edge. -/
def bfsReach (g : Graph) : Nat → List Nat → List Nat → List Nat
  | 0, _, visited => visited
  | _ + 1, [], visited => visited
  | fuel + 1, v :: queue, visited =>
      if visited.contains v then bfsReach g fuel queue visited
      else bfsReach g fuel (queue ++ g.neighborsOut v) (v :: visited)

/-- All node indices reachable from the start nodes (start nodes included). -/
def reachableNodes (g : Graph) (starts : List Nat) : List Nat :=
  bfsReach g (starts.length + g.edges.length + 1) starts []

/-- The reachable node names (`workspace.rs` lines 228-231). -/
def reachableNames (g : Graph) (starts : List Nat) : List String :=
  (reachableNodes g starts).map (fun v => g.nodes.getD v "")

/-- Cycles touching the reachable set (`workspace.rs` lines 233-238). -/
def relevantCycles (cycles : List (List String)) (reachNames : List String) :
    List (List String) :=
  cycles.filter (fun cycle => cycle.any (fun name => reachNames.contains name))

/-- One cycle rendered with its first member repeated at the end
(`workspace.rs` lines 244-250). -/
def cyclePathString (cycle : List String) : String :=
  let cyclePath :=
    match cycle.head? with
    | some first => cycle ++ [first]
    | none => cycle
  String.intercalate " -> " cyclePath

/-- The full circular-dependency error message
(`workspace.rs` lines 240-254). -/
def circularDependencyMessage (relevant : List (List String)) : String :=
  "Circular dependency detected: " ++
    String.intercalate "; " ((sortCycles relevant).map cyclePathString)

/-- The result-collecting DFS of `workspace.rs` lines 258-281: pop, skip
visited, mark, push unvisited dependencies, append the current name.  The
stack's head is its top; pushing the neighbor iteration order means the
reversed order sits on top.  Fuel bounds the pops as for `bfsReach`. -/
def dfsCollect (g : Graph) : Nat → List Nat → List Nat → List String → List String
  | 0, _, _, result => result
  | _ + 1, [], _, result => result
  | fuel + 1, v :: stack, visited, result =>
      if visited.contains v then dfsCollect g fuel stack visited result
      else
        let visited1 := v :: visited
        let toPush := (g.neighborsOut v).filter (fun u => !(visited1.contains u))
        dfsCollect g fuel (toPush.reverse ++ stack) visited1
          (result ++ [g.nodes.getD v ""])

/-- `get_recursive_dependencies` (`workspace.rs` lines 181-284). -/
def getRecursiveDependencies (ws : Workspace) (targets : List String) :
    Except String (List String) :=
  match ws.depGraph with
  | none => .error "Dependency graph not built. Call build_dependency_graph first."
  | some graph =>
      match resolveTargets graph.nodes targets with
      | .error e => .error e
      | .ok startNodes =>
          let reachNames := reachableNames graph startNodes
          let cycleCheck : Except String Unit :=
            if ws.dependencyCycles.isEmpty then .ok ()
            else
              let relevant := relevantCycles ws.dependencyCycles reachNames
              if relevant.isEmpty then .ok ()
              else .error (circularDependencyMessage relevant)
          match cycleCheck with
          | .error e => .error e
          | .ok _ =>
              .ok (dfsCollect graph (targets.length + graph.edges.length + 1)
                startNodes.reverse [] [])

/-! ## Errors (`types.rs`) -/

/-- `MartyError` (`types.rs`); the IO and YAML payloads are reduced to
their messages. -/
inductive MartyError where
  | io (msg : String)
  | yaml (msg : String)
  | config (msg : String)
  | workspace (msg : String)
  | task (msg : String)
  | project (msg : String)
  | path (msg : String)
deriving DecidableEq

/-! ## Dependency level grouping (`execution/dependencies.rs` lines 12-73) -/

/-- The seed loop of `group_by_dependency_levels` (`dependencies.rs` lines
34-41) as explicit recursion over the input list: every input project whose
node has no outgoing edges joins the first level and its index is marked
visited. -/
def seedLevelGo (g : Graph) : List String → List String × List Nat →
    List String × List Nat
  | [], acc => acc
  | project :: rest, acc =>
      match lastIdxOf g.nodes project with
      | some idx =>
          if (g.neighborsOut idx).length = 0 then
            seedLevelGo g rest (acc.1 ++ [project], idx :: acc.2)
          else seedLevelGo g rest acc
      | none => seedLevelGo g rest acc

def seedLevel (g : Graph) (projects : List String) : List String × List Nat :=
  seedLevelGo g projects ([], [])

/-- The inner node scan (`dependencies.rs` lines 51-59): every node with an
edge into `nodeIdx` whose name is in the input list and whose index is
unvisited is appended to the next level and marked visited. -/
def scanParentsInner (g : Graph) (projects : List String) (nodeIdx : Nat) :
    List Nat → List String × List Nat → List String × List Nat
  | [], acc => acc
  | parent :: rest, acc =>
      if g.containsEdge parent nodeIdx then
        let parentName := g.nodes.getD parent ""
        if projects.contains parentName && !(acc.2.contains parent) then
          scanParentsInner g projects nodeIdx rest
            (acc.1 ++ [parentName], parent :: acc.2)
        else scanParentsInner g projects nodeIdx rest acc
      else scanParentsInner g projects nodeIdx rest acc

/-- The parent scan of one loop iteration (`dependencies.rs` lines 47-61),
iterating the current level's members. -/
def scanParentsGo (g : Graph) (projects : List String) :
    List String → List String × List Nat → List String × List Nat
  | [], acc => acc
  | project :: rest, acc =>
      match lastIdxOf g.nodes project with
      | some nodeIdx =>
          scanParentsGo g projects rest
            (scanParentsInner g projects nodeIdx
              (List.range g.nodes.length) acc)
      | none => scanParentsGo g projects rest acc

/-- One full parent scan.  Returns `(next level, visited)`. -/
def scanParents (g : Graph) (projects : List String) (current : List String)
    (visited : List Nat) : List String × List Nat :=
  scanParentsGo g projects current ([], visited)

/-- Every edge leaves the last-added node of its source's name: the shape
`build_dependency_graph` guarantees, since each project's outgoing edges
originate from `node_indices[&project.name]` (`workspace.rs` line 129),
which maps a name to its last-inserted index. -/
def edgesFromCanonical (g : Graph) : Prop :=
  ∀ e ∈ g.edges, lastIdxOf g.nodes (g.nodes.getD e.1 "") = some e.1

/-- First-occurrence deduplication.  The Rust passes `next_level` through a
`HashSet` (`dependencies.rs` lines 63-67), whose iteration order is
unspecified; the scan's visited guard already prevents duplicates, so the
pass only fixes an order, modelled here as first-occurrence order. -/
def dedupFirstAux (seen : List String) : List String → List String
  | [] => []
  | x :: xs =>
      if seen.contains x then dedupFirstAux seen xs
      else x :: dedupFirstAux (x :: seen) xs

def dedupFirst (xs : List String) : List String := dedupFirstAux [] xs

/-- The level loop (`dependencies.rs` lines 43-68).  Fuel bounds the
iteration count: every iteration whose scan yields a nonempty next level
marks at least one new index (of the at most `nodes.length` many) visited. -/
def levelLoop (g : Graph) (projects : List String) :
    Nat → List String → List Nat → List (List String) → List (List String)
  | 0, _, _, levels => levels
  | fuel + 1, current, visited, levels =>
      if current.isEmpty then levels
      else
        let levels1 := levels ++ [current]
        let scan := scanParents g projects current visited
        levelLoop g projects fuel (dedupFirst scan.1) scan.2 levels1

/-- `group_by_dependency_levels` (`dependencies.rs` lines 12-73), including
the final `levels.reverse()`. -/
def groupByDependencyLevels (ws : Workspace) (projects : List String) :
    Except MartyError (List (List String)) :=
  match ws.depGraph with
  | none => .error (.task "Dependency graph not built")
  | some graph =>
      let seed := seedLevel graph projects
      let levels := levelLoop graph projects (graph.nodes.length + 2)
        seed.1 seed.2 []
      .ok levels.reverse

/-! ## Task configuration and the task runner
(`configs/tasks.rs`, `execution/runner.rs`) -/

/-- `configs::tasks::Command`. -/
inductive Command where
  | single (s : String)
  | multiple (cmds : List String)
deriving DecidableEq

/-- `configs::tasks::TaskConfig`. -/
structure TaskConfig where
  name : String
  description : Option String
  script : Option String
  command : Option Command
  dependencies : Option (List String)
  overrideTargets : Option (List String)
deriving DecidableEq

/-- `configs::tasks::TasksFileConfig`. -/
structure TasksFileConfig where
  name : Option String
  description : Option String
  tasks : List TaskConfig
  tags : Option (List String)
  targets : Option (List String)
deriving DecidableEq

/-- A spawn performed by the `CommandExecutor` on behalf of a task; the
subprocess itself is outside the model, so execution is recorded as the
list of spawns. -/
inductive ExecAction where
  | runScript (path : String) (targets : List String)
  | shellCommand (cmd : String) (targets : List String)
  | program (prog : String) (args : List String) (targets : List String)
deriving DecidableEq

/-- `HashMap<String, TaskConfig>` lookup. -/
def lookupTask (allTasks : List (String × TaskConfig)) (name : String) :
    Option TaskConfig :=
  (allTasks.find? (fun t => t.1 = name)).map (·.2)

/-- `TaskRunner::execute_task_command` (`runner.rs` lines 160-171). -/
def executeTaskCommand (command : Command) (targets : List String) :
    List ExecAction :=
  match command with
  | .single cmd => [.shellCommand cmd targets]
  | .multiple [] => []
  | .multiple (p :: args) => [.program p args targets]

/-- `TaskRunner::run_task` (`runner.rs` lines 119-157): run the task-level
dependencies first, then dispatch on `script` / `command`.  The Rust
recursion is unbounded (a task-dependency cycle would overflow the stack);
the fuel models that abort. -/
def runTask (allTasks : List (String × TaskConfig)) :
    Nat → TaskConfig → List String → Except MartyError (List ExecAction)
  | 0, _, _ => .error (.task "task dependency recursion limit exceeded")
  | fuel + 1, taskConfig, targets =>
      let depsResult : Except MartyError (List ExecAction) :=
        match taskConfig.dependencies with
        | none => .ok []
        | some deps =>
            deps.foldl
              (fun acc depName =>
                match acc with
                | .error e => .error e
                | .ok acts =>
                    match lookupTask allTasks depName with
                    | some depTask =>
                        match runTask allTasks fuel depTask targets with
                        | .error e => .error e
                        | .ok acts2 => .ok (acts ++ acts2)
                    | none =>
                        .error (.task ("Dependency '" ++ depName ++
                          "' not found for task '" ++ taskConfig.name ++ "'")))
              (.ok [])
      match depsResult with
      | .error e => .error e
      | .ok depActions =>
          let effectiveTargets := taskConfig.overrideTargets.getD targets
          match taskConfig.script with
          | some script => .ok (depActions ++ [.runScript script effectiveTargets])
          | none =>
              match taskConfig.command with
              | some command =>
                  .ok (depActions ++ executeTaskCommand command effectiveTargets)
              | none =>
                  .error (.task ("Task '" ++ taskConfig.name ++
                    "' has no script or command to execute"))

/-! ## Task execution planning (`task_execution.rs`) -/

/-- `is_project_compatible_with_task` (`task_execution.rs` lines 17-74).
The file reads and YAML parses are assumed to succeed (their failure paths
only wrap IO errors). -/
def isProjectCompatibleWithTask (ws : Workspace) (projectName : String)
    (cfg : TasksFileConfig) : Bool :=
  let taskFileTags := cfg.tags.getD []
  if taskFileTags.isEmpty then true
  else
    match ws.projects.find? (fun p => p.name = projectName) with
    | none => false
    | some project =>
        match project.manifest with
        | none => true
        | some m =>
            let projectTags := m.tags.getD []
            if projectTags.isEmpty then false
            else
              taskFileTags.any (fun taskTag =>
                projectTags.any (fun projectTag => projectTag = taskTag))

/-- `check_task_in_project` (`task_execution.rs` lines 104-138). -/
def checkTaskInProject (ws : Workspace) (projectName taskName : String) :
    Except MartyError Bool :=
  match ws.projects.find? (fun p => p.name = projectName) with
  | none => .error (.task ("Project '" ++ projectName ++ "' not found"))
  | some project =>
      match project.manifest with
      | none => .ok false
      | some m => .ok (m.tasks.contains taskName)

/-- The all-projects loop of `task_exists` (`task_execution.rs` lines
93-98). -/
def anyProjectHasTask (ws : Workspace) (taskName : String) :
    List Project → Except MartyError Bool
  | [] => .ok false
  | p :: rest =>
      match checkTaskInProject ws p.name taskName with
      | .error e => .error e
      | .ok true => .ok true
      | .ok false => anyProjectHasTask ws taskName rest

/-- `task_exists` (`task_execution.rs` lines 77-101). -/
def taskExists (ws : Workspace) (cfg : TasksFileConfig) (taskName : String)
    (projectFilter : Option String) : Except MartyError Bool :=
  if cfg.tasks.any (fun t => t.name = taskName) then .ok true
  else
    match projectFilter with
    | some projectName => checkTaskInProject ws projectName taskName
    | none => anyProjectHasTask ws taskName ws.projects

structure TaskExecutionPlan where
  taskName : String
  compatibleProjects : List String
  projectFilter : Option String
deriving DecidableEq

/-- `resolve_task_execution_plan` (`task_execution.rs` lines 141-195). -/
def resolveTaskExecutionPlan (ws : Workspace) (cfg : TasksFileConfig)
    (taskName : String) (projectFilter : Option String) :
    Except MartyError TaskExecutionPlan :=
  match taskExists ws cfg taskName projectFilter with
  | .error e => .error e
  | .ok false => .error (.task ("Task '" ++ taskName ++ "' not found"))
  | .ok true =>
      let initialResult : Except MartyError (List String) :=
        match projectFilter with
        | some projectName =>
            if ws.projects.any (fun p => p.name = projectName) then
              .ok [projectName]
            else .error (.task ("Project '" ++ projectName ++ "' not found"))
        | none => .ok (ws.projects.map (·.name))
      match initialResult with
      | .error e => .error e
      | .ok initialTargets =>
          match getRecursiveDependencies ws initialTargets with
          | .error e =>
              .error (.task ("Failed to resolve dependencies: " ++ e))
          | .ok allProjectsWithDeps =>
              let compatibleProjects := allProjectsWithDeps.filter
                (fun n => isProjectCompatibleWithTask ws n cfg)
              match projectFilter with
              | some targetProject =>
                  if compatibleProjects.contains targetProject then
                    .ok ⟨taskName, compatibleProjects, projectFilter⟩
                  else
                    .error (.task ("Project '" ++ targetProject ++
                      "' is not compatible with task '" ++ taskName ++
                      "' (tag mismatch)"))
              | none => .ok ⟨taskName, compatibleProjects, projectFilter⟩

/-! ## Derived predicates and concrete fixtures -/

/-- The dependency list `build_dependency_graph` reads for a project: its
first matching inferred project's `workspace_dependencies`, or nothing
(`workspace.rs` lines 130-136). -/
def inferredDepsFor (inferred : List InferredProject) (name : String) :
    List String :=
  match inferred.find? (fun q => q.name = name) with
  | some ip => ip.workspaceDependencies
  | none => []

/-- Every dependency named by any project resolves to a project name. -/
def allDepsPresent (projects : List Project)
    (inferred : List InferredProject) : Prop :=
  ∀ p ∈ projects, ∀ d ∈ inferredDepsFor inferred p.name,
    d ∈ projects.map (·.name)

instance (projects : List Project) (inferred : List InferredProject) :
    Decidable (allDepsPresent projects inferred) := by
  unfold allDepsPresent; infer_instance

/-- The name `resolve_plugin` falls back to when validation fails: the
reloaded plugin's name, else the derived temporary name
(`plugin_cache.rs` lines 258-260). -/
def fallbackLoadName (loadResult : Except String DylibPlugin)
    (tempName : String) : String :=
  match loadPluginAndGetName loadResult with
  | .ok n => n
  | .error _ => tempName

/-- Fixture: workspace `a` depends on `b`, no cycle. -/
def c1Projects : List Project := [⟨"a", none⟩, ⟨"b", none⟩]

def c1Inferred : List InferredProject := [⟨"a", ["b"]⟩, ⟨"b", []⟩]

def c1Graph : Graph := ⟨["a", "b"], [(0, 1)]⟩

def c1Ws : Workspace := ⟨c1Projects, c1Inferred, some c1Graph, []⟩

/-- Fixture: the spec's S4 chain `root` → `mid` → `leaf`. -/
def lmrProjects : List Project :=
  [⟨"leaf", none⟩, ⟨"mid", none⟩, ⟨"root", none⟩]

def lmrInferred : List InferredProject :=
  [⟨"leaf", []⟩, ⟨"mid", ["leaf"]⟩, ⟨"root", ["mid"]⟩]

def lmrGraph : Graph := ⟨["leaf", "mid", "root"], [(1, 0), (2, 1)]⟩

def lmrWs : Workspace := ⟨lmrProjects, lmrInferred, some lmrGraph, []⟩

/-- Fixture: the spec's S1 two-cycle `a` ↔ `b`. -/
def cycProjects : List Project := [⟨"a", none⟩, ⟨"b", none⟩]

def cycInferred : List InferredProject := [⟨"a", ["b"]⟩, ⟨"b", ["a"]⟩]

def cycGraph : Graph := ⟨["a", "b"], [(0, 1), (1, 0)]⟩

def cycWs : Workspace := ⟨cycProjects, cycInferred, some cycGraph, [["a", "b"]]⟩

/-- Fixture: the spec's S5 tag scenario: `a` tagged `rust`, `b` tagged
`js`, task file tagged `rust`. -/
def tagProjects : List Project :=
  [⟨"a", some ⟨some ["rust"], ["test"]⟩⟩, ⟨"b", some ⟨some ["js"], []⟩⟩]

def tagGraph : Graph := ⟨["a", "b"], []⟩

def tagWs : Workspace :=
  ⟨tagProjects, [⟨"a", []⟩, ⟨"b", []⟩], some tagGraph, []⟩

def tagCfg : TasksFileConfig :=
  ⟨none, none, [⟨"test", none, none, some (.single "echo"), none, none⟩],
   some ["rust"], none⟩

/-- Fixture: a task with both `script` and `command` set, and one with
neither. -/
def bothTask : TaskConfig :=
  ⟨"deploy", none, some "scripts/deploy.sh", some (.single "echo done"),
   none, none⟩

def neitherTask : TaskConfig := ⟨"noop", none, none, none, none, none⟩

/-- Fixture: a plugin schema declaring one `boolean` property and
`additionalProperties: false`. -/
def sampleProperties : List (String × Json) :=
  [("verbose", Json.obj [("type", Json.str "boolean")])]

def sampleSchema : Json :=
  Json.obj [("properties", Json.obj sampleProperties),
            ("additionalProperties", Json.bool false)]

def samplePlugin : DylibPlugin := ⟨"cargo", some sampleSchema⟩

def badKeyOptions : Json := Json.obj [("verbos", Json.bool true)]

def mismatchOptions : Json := Json.obj [("verbose", Json.str "yes")]

/-- Fixture: two explicit projects sharing the name `a`. -/
def dupProjects : List Project := [⟨"a", none⟩, ⟨"a", none⟩]

def dupInferred : List InferredProject := [⟨"a", []⟩]

/-- Fixture: a one-project workspace with its graph built. -/
def soloWs : Workspace := ⟨[⟨"a", none⟩], [⟨"a", []⟩], some ⟨["a"], []⟩, []⟩

/-! # Supporting lemmas -/

lemma lastIdxOf_foldl_isSome (name : String) :
    ∀ (xs : List String) (o : Option Nat) (i : Nat),
      ((xs.foldl (fun acc x =>
          (if x = name then some acc.2 else acc.1, acc.2 + 1)) (o, i)).1).isSome
        ↔ (o.isSome ∨ name ∈ xs) := by
  intro xs
  induction xs with
  | nil => intro o i; simp
  | cons x xs ih =>
      intro o i
      simp only [List.foldl_cons]
      rw [ih]
      by_cases hx : x = name
      · subst hx; simp
      · simp only [if_neg hx, List.mem_cons]
        constructor
        · rintro (h | h)
          · exact Or.inl h
          · exact Or.inr (Or.inr h)
        · rintro (h | h | h)
          · exact Or.inl h
          · exact absurd h.symm hx
          · exact Or.inr h

lemma lastIdxOf_isSome_iff (xs : List String) (name : String) :
    (lastIdxOf xs name).isSome ↔ name ∈ xs := by
  unfold lastIdxOf
  rw [lastIdxOf_foldl_isSome]
  simp

lemma lastIdxOf_mem {xs : List String} {name : String} (h : name ∈ xs) :
    ∃ j, lastIdxOf xs name = some j := by
  have := (lastIdxOf_isSome_iff xs name).mpr h
  cases hL : lastIdxOf xs name with
  | none => rw [hL] at this; cases this
  | some j => exact ⟨j, rfl⟩

lemma lastIdxOf_foldl_some (name : String) :
    ∀ (xs : List String) (o : Option Nat) (i0 j : Nat),
      (xs.foldl (fun acc x =>
          (if x = name then some acc.2 else acc.1, acc.2 + 1)) (o, i0)).1 = some j →
      o = some j ∨ ∃ k, k < xs.length ∧ i0 + k = j ∧ xs.getD k "" = name := by
  intro xs
  induction xs with
  | nil => intro o i0 j h; exact Or.inl h
  | cons x xs ih =>
      intro o i0 j h
      simp only [List.foldl_cons] at h
      rcases ih _ _ j h with h' | ⟨k, hk, hik, hg⟩
      · by_cases hx : x = name
        · rw [if_pos hx] at h'
          refine Or.inr ⟨0, by simp, ?_, ?_⟩
          · simpa using (Option.some.injEq _ _ ▸ h' :)
          · simp [hx]
        · rw [if_neg hx] at h'
          exact Or.inl h'
      · exact Or.inr ⟨k + 1, by simpa using hk, by omega, by simpa using hg⟩

lemma lastIdxOf_getD {xs : List String} {name : String} {j : Nat}
    (h : lastIdxOf xs name = some j) :
    j < xs.length ∧ xs.getD j "" = name := by
  unfold lastIdxOf at h
  rcases lastIdxOf_foldl_some name xs none 0 j h with h' | ⟨k, hk, hik, hg⟩
  · cases h'
  · have : k = j := by omega
    subst this
    exact ⟨hk, hg⟩

lemma listCharLt_iff : ∀ (as bs : List Char), listCharLt as bs = true ↔ as < bs := by
  intro as
  induction as with
  | nil =>
      intro bs
      cases bs with
      | nil => exact iff_of_false (by simp [listCharLt]) (fun h => by cases h)
      | cons b bs => exact iff_of_true (by simp [listCharLt]) List.Lex.nil
  | cons a as ih =>
      intro bs
      cases bs with
      | nil => exact iff_of_false (by simp [listCharLt]) (fun h => by cases h)
      | cons b bs =>
          simp only [listCharLt]
          by_cases h1 : a < b
          · rw [if_pos h1]
            exact iff_of_true rfl (List.Lex.rel h1)
          · rw [if_neg h1]
            by_cases h2 : b < a
            · rw [if_pos h2]
              refine iff_of_false (by simp) (fun h => ?_)
              cases h with
              | cons h => exact absurd h2 (lt_irrefl _)
              | rel h => exact h1 h
            · rw [if_neg h2]
              have hab : a = b := le_antisymm (not_lt.mp h2) (not_lt.mp h1)
              subst hab
              rw [ih bs]
              constructor
              · exact fun h => List.Lex.cons h
              · intro h
                cases h with
                | cons h => exact h
                | rel h => exact absurd h h1

lemma strLeB_iff (a b : String) : strLeB a b = true ↔ a ≤ b := by
  have hlt : strLtB b a = true ↔ b < a := by
    rw [String.lt_iff_toList_lt]
    exact listCharLt_iff b.data a.data
  rw [← not_lt, ← hlt]
  simp [strLeB]

lemma sortStrings_sorted (xs : List String) :
    (sortStrings xs).Pairwise (· ≤ ·) := by
  haveI htot : IsTotal String (fun a b => strLeB a b = true) :=
    ⟨fun a b => by
      rcases le_total a b with h | h
      · exact Or.inl ((strLeB_iff a b).mpr h)
      · exact Or.inr ((strLeB_iff b a).mpr h)⟩
  haveI htrans : IsTrans String (fun a b => strLeB a b = true) :=
    ⟨fun a b c hab hbc => by
      rw [strLeB_iff] at *
      exact le_trans hab hbc⟩
  have h := List.sorted_insertionSort (fun a b => strLeB a b = true) xs
  exact h.imp (fun hab => (strLeB_iff _ _).mp hab)

lemma mem_sortStrings {x : String} {xs : List String} :
    x ∈ sortStrings xs ↔ x ∈ xs :=
  (List.perm_insertionSort (fun a b => strLeB a b = true) xs).mem_iff

lemma mem_sortCycles {c : List String} {cs : List (List String)} :
    c ∈ sortCycles cs ↔ c ∈ cs :=
  (List.perm_insertionSort (fun a b => listLexLe a b = true) cs).mem_iff

/-! # Hash known-answer checks -/

set_option maxRecDepth 100000 in
/-- FIPS 180-4 known-answer check for the SHA-256 embedding. -/
theorem sha256_known_answer_abc :
    sha256HexOfString "abc" =
      "ba7816bf8f01cfea414140de5dae2223b00361a396177a9cb410ff61f20015ad" := by
  decide

set_option maxRecDepth 100000 in
/-- Second known-answer check (empty message). -/
theorem sha256_known_answer_empty :
    sha256HexOfString "" =
      "e3b0c44298fc1c149afbf4c8996fb92427ae41e4649b934ca495991b7852b855" := by
  decide

/-! # Claim theorems -/

/-- C1: on the two-project workspace where `a` depends on `b` (graph built,
no cycles, so the claim's hypotheses hold), `get_recursive_dependencies`
returns `["a", "b"]` — each project BEFORE its dependency — although the
claim (and the function's own doc comment, `workspace.rs` line 180) require
dependencies to appear before their dependents (`["b", "a"]`).  The
iterative DFS appends the popped node to the result before visiting its
dependencies. -/
theorem c1_recursive_deps_emit_targets_before_dependencies :
    buildDependencyGraph c1Projects c1Inferred = .ok (c1Graph, []) ∧
    c1Ws.dependencyCycles = [] ∧
    getRecursiveDependencies c1Ws ["a"] = .ok ["a", "b"] :=
  ⟨rfl, rfl, rfl⟩

/-- C2: on the spec's S4 chain `root` → `mid` → `leaf` (graph built from
the sources), `group_by_dependency_levels` returns
`[["root"], ["mid"], ["leaf"]]` — the first level is the ROOT, not the
leaves, and every edge `u → v` has `level(v) > level(u)`.  The loop builds
the levels leaves-first and then `levels.reverse()` (contradicting its own
comment "Reverse to get dependencies first") flips them. -/
theorem c2_levels_come_out_roots_first :
    buildDependencyGraph lmrProjects lmrInferred = .ok (lmrGraph, []) ∧
    groupByDependencyLevels lmrWs ["root", "mid", "leaf"] =
      .ok [["root"], ["mid"], ["leaf"]] :=
  ⟨rfl, rfl⟩

/-- C6 counterexample: a task with BOTH `script` and `command` set executes
its script (command silently ignored) instead of failing as the claim
requires. -/
theorem c6_both_script_and_command_not_fatal :
    runTask [] 1 bothTask ["app"] =
      .ok [.runScript "scripts/deploy.sh" ["app"]] :=
  rfl

/-- C6 (amended): executing a resolved task with neither `script` nor
`command` set is a fatal error; when both are set, the script is executed
and the command is ignored (script takes precedence). -/
theorem c6_script_command_dispatch :
    (∀ (allTasks : List (String × TaskConfig)) (fuel : Nat) (tc : TaskConfig)
       (targets : List String),
       tc.dependencies = none → tc.script = none → tc.command = none →
       runTask allTasks (fuel + 1) tc targets =
         .error (.task ("Task '" ++ tc.name ++
           "' has no script or command to execute"))) ∧
    (∀ (allTasks : List (String × TaskConfig)) (fuel : Nat) (tc : TaskConfig)
       (targets : List String) (s : String),
       tc.dependencies = none → tc.script = some s →
       runTask allTasks (fuel + 1) tc targets =
         .ok [.runScript s (tc.overrideTargets.getD targets)]) := by
  constructor
  · intro allTasks fuel tc targets hdeps hs hc
    simp [runTask, hdeps, hs, hc]
  · intro allTasks fuel tc targets s hdeps hs
    simp [runTask, hdeps, hs]

/-- C6 witness: the amended theorem evaluated on concrete tasks. -/
theorem c6_script_command_dispatch_witness :
    runTask [] 1 neitherTask ["app"] =
      .error (.task "Task 'noop' has no script or command to execute") ∧
    runTask [] 1 bothTask ["web"] =
      .ok [.runScript "scripts/deploy.sh" ["web"]] :=
  ⟨c6_script_command_dispatch.1 [] 0 neitherTask ["app"] rfl rfl rfl,
   c6_script_command_dispatch.2 [] 0 bothTask ["web"] "scripts/deploy.sh"
     rfl rfl⟩

/-- C7 counterexample: an option-validation failure (unknown key `verbos`)
is NOT surfaced as an error by plugin resolution: `resolve_plugin` returns
`Ok` with the plugin loaded, demoting the failure to a stderr warning via
its `unwrap_or_else` fallback — the same path used when validation cannot
run at all. -/
theorem c7_validation_failure_resolves_ok :
    loadPluginAndValidateOptions (.ok samplePlugin) (some badKeyOptions) =
      .error (unsupportedOptionMessage "cargo" "verbos" sampleProperties) ∧
    resolvePluginUrlBranch (.ok samplePlugin) "/cache/x.so" "https://u" "temp"
        (some badKeyOptions) true =
      .ok (⟨"cargo", "/cache/x.so", some "https://u", true, some badKeyOptions⟩,
           [validationWarning "temp"
             (unsupportedOptionMessage "cargo" "verbos" sampleProperties)]) :=
  ⟨rfl, rfl⟩

/-- C7 (amended): EVERY failure of the load-and-validate step — option
validation failures included — makes plugin resolution fall back to loading
without option validation and emit a warning on the error channel carrying
the failure text; resolution itself succeeds. -/
theorem c7_validation_failure_warns_and_falls_back :
    ∀ (loadResult : Except String DylibPlugin) (tempName path url : String)
      (options : Option Json) (enabled : Bool) (e : String),
      loadPluginAndValidateOptions loadResult options = .error e →
      resolvePluginUrlBranch loadResult path url tempName options enabled =
        .ok (⟨fallbackLoadName loadResult tempName, path, some url, enabled,
              options⟩, [validationWarning tempName e]) := by
  intro loadResult tempName path url options enabled e he
  simp only [resolvePluginUrlBranch, resolvePluginNameWithWarnings, he,
    fallbackLoadName]
  cases h : loadPluginAndGetName loadResult <;> simp [h]

/-- C7 witness: the amended theorem evaluated on a concrete type-mismatch
failure. -/
theorem c7_validation_failure_warns_witness :
    resolvePluginUrlBranch (.ok samplePlugin) "/cache/y.so" "https://u2"
        "temp" (some mismatchOptions) true =
      .ok (⟨fallbackLoadName (.ok samplePlugin) "temp", "/cache/y.so",
            some "https://u2", true, some mismatchOptions⟩,
           [validationWarning "temp"
             (typeMismatchMessage "cargo" "verbose" "boolean" "string")]) :=
  c7_validation_failure_warns_and_falls_back (.ok samplePlugin) "temp"
    "/cache/y.so" "https://u2" (some mismatchOptions) true
    (typeMismatchMessage "cargo" "verbose" "boolean" "string") rfl

lemma firstUnknownKey_eq_find? (props : List (String × Json)) :
    ∀ l : List (String × Json),
      firstUnknownKey props l =
        (l.find? (fun kv => !props.any (fun p => p.1 = kv.1))).map (·.1) := by
  intro l
  induction l with
  | nil => rfl
  | cons kv rest ih =>
      obtain ⟨k, v⟩ := kv
      simp only [firstUnknownKey, List.find?]
      by_cases h : props.any (fun p => p.1 = k) = true
      · simp [h, ih]
      · simp only [Bool.not_eq_true] at h
        simp [h]

lemma firstUnknownKey_eq_none {props : List (String × Json)}
    {l : List (String × Json)}
    (h : ∀ kv ∈ l, props.any (fun p => p.1 = kv.1) = true) :
    firstUnknownKey props l = none := by
  induction l with
  | nil => rfl
  | cons kv rest ih =>
      obtain ⟨k, v⟩ := kv
      simp only [firstUnknownKey]
      rw [if_pos (h (k, v) (List.mem_cons_self _ _))]
      exact ih (fun kv hkv => h kv (List.mem_cons_of_mem _ hkv))

lemma firstTypeMismatch_characterization (props : List (String × Json)) :
    ∀ (l : List (String × Json)) (k exp act : String),
      firstTypeMismatch props l = some (k, exp, act) →
      ∃ v, (k, v) ∈ l ∧
        ∃ propSchema, (lookupField props k).bind Json.asObj = some propSchema ∧
          lookupField propSchema "type" = some (.str exp) ∧
          act = v.typeName ∧ exp ≠ act := by
  intro l
  induction l with
  | nil => intro k exp act h; cases h
  | cons kv rest ih =>
      obtain ⟨k0, v0⟩ := kv
      intro k exp act h
      simp only [firstTypeMismatch] at h
      cases hps : (lookupField props k0).bind Json.asObj with
      | none =>
          simp only [hps] at h
          obtain ⟨v, hv, rest'⟩ := ih k exp act h
          exact ⟨v, List.mem_cons_of_mem _ hv, rest'⟩
      | some propSchema =>
          simp only [hps] at h
          cases hty : lookupField propSchema "type" with
          | none =>
              simp only [hty] at h
              obtain ⟨v, hv, rest'⟩ := ih k exp act h
              exact ⟨v, List.mem_cons_of_mem _ hv, rest'⟩
          | some tyVal =>
              cases tyVal with
              | str expected =>
                  simp only [hty] at h
                  by_cases hne : expected ≠ v0.typeName
                  · rw [if_pos hne] at h
                    obtain ⟨rfl, rfl, rfl⟩ :
                        k0 = k ∧ expected = exp ∧ v0.typeName = act := by
                      cases h; exact ⟨rfl, rfl, rfl⟩
                    exact ⟨v0, List.mem_cons_self _ _,
                      propSchema, hps, hty, rfl, hne⟩
                  · rw [if_neg hne] at h
                    obtain ⟨v, hv, rest'⟩ := ih k exp act h
                    exact ⟨v, List.mem_cons_of_mem _ hv, rest'⟩
              | num n =>
                  simp only [hty] at h
                  obtain ⟨v, hv, rest'⟩ := ih k exp act h
                  exact ⟨v, List.mem_cons_of_mem _ hv, rest'⟩
              | bool b =>
                  simp only [hty] at h
                  obtain ⟨v, hv, rest'⟩ := ih k exp act h
                  exact ⟨v, List.mem_cons_of_mem _ hv, rest'⟩
              | arr a =>
                  simp only [hty] at h
                  obtain ⟨v, hv, rest'⟩ := ih k exp act h
                  exact ⟨v, List.mem_cons_of_mem _ hv, rest'⟩
              | obj o =>
                  simp only [hty] at h
                  obtain ⟨v, hv, rest'⟩ := ih k exp act h
                  exact ⟨v, List.mem_cons_of_mem _ hv, rest'⟩
              | null =>
                  simp only [hty] at h
                  obtain ⟨v, hv, rest'⟩ := ih k exp act h
                  exact ⟨v, List.mem_cons_of_mem _ hv, rest'⟩

/-- C8: when the schema is a JSON object with a `properties` object:
with `additionalProperties: false` an unknown options key is rejected with
an error naming the plugin, the (first) offending key, and the valid keys;
a declared-`type` mismatch is rejected with an error naming plugin, key,
expected and actual type (the reported triple always comes from a real
binding with a declared type string differing from the value's type); and a
plugin with no schema accepts any options value. -/
theorem c8_schema_validation_rejections :
    (∀ (pName : String) (schemaObj props optFields : List (String × Json))
       (k : String) (v : Json),
       (lookupField schemaObj "properties").bind Json.asObj = some props →
       lookupField schemaObj "additionalProperties" = some (.bool false) →
       optFields.find? (fun kv => !props.any (fun p => p.1 = kv.1)) =
         some (k, v) →
       validateOptionsAgainstSchema (.obj optFields) (.obj schemaObj) pName =
         .error (unsupportedOptionMessage pName k props)) ∧
    (∀ (pName : String) (schemaObj props optFields : List (String × Json)),
       (lookupField schemaObj "properties").bind Json.asObj = some props →
       lookupField schemaObj "additionalProperties" = some (.bool false) →
       (∃ kv ∈ optFields, ∀ p ∈ props, p.1 ≠ kv.1) →
       ∃ m, validateOptionsAgainstSchema (.obj optFields) (.obj schemaObj)
         pName = .error m) ∧
    (∀ (pName : String) (schemaObj props optFields : List (String × Json))
       (k exp act : String),
       (lookupField schemaObj "properties").bind Json.asObj = some props →
       (∀ kv ∈ optFields, props.any (fun p => p.1 = kv.1) = true) →
       firstTypeMismatch props optFields = some (k, exp, act) →
       validateOptionsAgainstSchema (.obj optFields) (.obj schemaObj) pName =
         .error (typeMismatchMessage pName k exp act)) ∧
    (∀ (props l : List (String × Json)) (k exp act : String),
       firstTypeMismatch props l = some (k, exp, act) →
       ∃ v, (k, v) ∈ l ∧
         ∃ propSchema, (lookupField props k).bind Json.asObj = some propSchema ∧
           lookupField propSchema "type" = some (.str exp) ∧
           act = v.typeName ∧ exp ≠ act) ∧
    (∀ (plugin : DylibPlugin) (options : Json),
       plugin.configurationOptions = none →
       validatePluginOptions plugin options = .ok ()) := by
  have part1 : ∀ (pName : String)
      (schemaObj props optFields : List (String × Json)) (k : String)
      (v : Json),
      (lookupField schemaObj "properties").bind Json.asObj = some props →
      lookupField schemaObj "additionalProperties" = some (.bool false) →
      optFields.find? (fun kv => !props.any (fun p => p.1 = kv.1)) =
        some (k, v) →
      validateOptionsAgainstSchema (.obj optFields) (.obj schemaObj) pName =
        .error (unsupportedOptionMessage pName k props) := by
    intro pName schemaObj props optFields k v h1 h2 h3
    have hS : (Json.obj schemaObj).asObj = some schemaObj := rfl
    have hO : (Json.obj optFields).asObj = some optFields := rfl
    simp [validateOptionsAgainstSchema, hS, hO, h1, h2,
      firstUnknownKey_eq_find?, h3]
  refine ⟨part1, ?_, ?_, firstTypeMismatch_characterization, ?_⟩
  · intro pName schemaObj props optFields h1 h2 hex
    have hfind : (optFields.find?
        (fun kv => !props.any (fun p => p.1 = kv.1))).isSome := by
      rw [List.find?_isSome]
      obtain ⟨kv, hkv, hall⟩ := hex
      refine ⟨kv, hkv, ?_⟩
      simp only [Bool.not_eq_true', List.any_eq_false]
      intro p hp
      simp [hall p hp]
    cases hf : optFields.find? (fun kv => !props.any (fun p => p.1 = kv.1)) with
    | none => rw [hf] at hfind; cases hfind
    | some kv =>
        obtain ⟨k, v⟩ := kv
        exact ⟨_, part1 pName schemaObj props optFields k v h1 h2 hf⟩
  · intro pName schemaObj props optFields k exp act h1 hAll h3
    have hS : (Json.obj schemaObj).asObj = some schemaObj := rfl
    have hO : (Json.obj optFields).asObj = some optFields := rfl
    simp only [validateOptionsAgainstSchema, hS, hO, h1]
    cases hx : lookupField schemaObj "additionalProperties" with
    | none => simp [h3]
    | some j =>
        cases j with
        | bool b =>
            cases b with
            | false => rw [firstUnknownKey_eq_none hAll]; simp [h3]
            | true => simp [h3]
        | str s => simp [h3]
        | num n => simp [h3]
        | arr a => simp [h3]
        | obj o => simp [h3]
        | null => simp [h3]
  · intro plugin options h
    simp [validatePluginOptions, h]

/-- C8 witness: the validation theorem evaluated on a concrete schema with
an unknown key, a type mismatch, and a schema-less plugin. -/
theorem c8_schema_validation_witness :
    validateOptionsAgainstSchema badKeyOptions sampleSchema "cargo" =
      .error (unsupportedOptionMessage "cargo" "verbos" sampleProperties) ∧
    validateOptionsAgainstSchema mismatchOptions sampleSchema "cargo" =
      .error (typeMismatchMessage "cargo" "verbose" "boolean" "string") ∧
    validatePluginOptions ⟨"p", none⟩ (Json.str "x") = .ok () :=
  ⟨c8_schema_validation_rejections.1 "cargo"
     [("properties", Json.obj sampleProperties),
      ("additionalProperties", Json.bool false)]
     sampleProperties [("verbos", Json.bool true)] "verbos" (Json.bool true)
     rfl rfl rfl,
   (c8_schema_validation_rejections.2.2.1) "cargo"
     [("properties", Json.obj sampleProperties),
      ("additionalProperties", Json.bool false)]
     sampleProperties [("verbose", Json.str "yes")] "verbose" "boolean"
     "string" rfl
     (by intro kv hkv; simp only [List.mem_singleton] at hkv; subst hkv; rfl)
     rfl,
   c8_schema_validation_rejections.2.2.2.2 ⟨"p", none⟩ (Json.str "x") rfl⟩

lemma toBytesBE_length : ∀ (k n : Nat), (toBytesBE k n).length = k := by
  intro k
  induction k with
  | zero => intro n; rfl
  | succ k ih => intro n; simp [toBytesBE, ih]

lemma toBytesBE_lt : ∀ (k n : Nat), ∀ b ∈ toBytesBE k n, b < 256 := by
  intro k
  induction k with
  | zero => intro n b hb; cases hb
  | succ k ih =>
      intro n b hb
      simp only [toBytesBE, List.mem_append, List.mem_singleton] at hb
      rcases hb with hb | rfl
      · exact ih _ b hb
      · exact Nat.mod_lt _ (by omega)

lemma sha256Bytes_length (msg : List Nat) : (sha256Bytes msg).length = 32 := by
  simp [sha256Bytes, toBytesBE_length]

lemma sha256Bytes_lt (msg : List Nat) : ∀ b ∈ sha256Bytes msg, b < 256 := by
  intro b hb
  simp only [sha256Bytes, List.mem_append] at hb
  rcases hb with ((((((hb | hb) | hb) | hb) | hb) | hb) | hb) | hb <;>
    exact toBytesBE_lt 4 _ b hb

lemma bytesToHex_data (bs : List Nat) :
    (bytesToHex bs).data =
      (bs.map (fun b => [hexDigitChar (b / 16), hexDigitChar (b % 16)])).flatten := by
  simp only [bytesToHex, String.data_join, List.map_map]
  rfl

lemma bytesToHex_length (bs : List Nat) :
    (bytesToHex bs).length = 2 * bs.length := by
  show (bytesToHex bs).data.length = 2 * bs.length
  rw [bytesToHex_data]
  induction bs with
  | nil => rfl
  | cons b rest ih => simp_all; omega

lemma hexDigitChar_mem {n : Nat} (h : n < 16) :
    hexDigitChar n ∈ "0123456789abcdef".data := by
  interval_cases n <;> decide

lemma bytesToHex_chars {bs : List Nat} (hbs : ∀ b ∈ bs, b < 256) :
    ∀ c ∈ (bytesToHex bs).data, c ∈ "0123456789abcdef".data := by
  intro c hc
  rw [bytesToHex_data] at hc
  simp only [List.mem_flatten, List.mem_map] at hc
  obtain ⟨l, ⟨b, hb, rfl⟩, hcl⟩ := hc
  have hb256 := hbs b hb
  simp only [List.mem_cons, List.mem_singleton, List.not_mem_nil,
    or_false] at hcl
  rcases hcl with rfl | rfl
  · exact hexDigitChar_mem (by omega)
  · exact hexDigitChar_mem (Nat.mod_lt _ (by omega))

set_option maxHeartbeats 1000000 in
/-- C5: the plugin cache key.  (1) The hex digest of a URL is 64
characters, all lowercase hex, so the filename's hash component is its
first 8 lowercase hex characters; (2) every successful
`download_and_cache_plugin` call returns the path
`<cache_dir>/<name>_<hash8>.<platform_ext>`, a function of the name, the
URL and the platform only; (3) when a file of that name is already cached
the call returns that path with the cache unchanged and no download. -/
theorem c5_cache_key_shape :
    (∀ url : String, (sha256HexOfString url).length = 64 ∧
       ∀ c ∈ (sha256HexOfString url).data, c ∈ "0123456789abcdef".data) ∧
    (∀ (cacheDir : String) (cacheFiles : List String) (os name url : String)
       (fetch : Except String (List Nat)) (path : String)
       (files : List String) (dl : Bool),
       downloadAndCachePlugin cacheDir cacheFiles os name url fetch =
         .ok (path, files, dl) →
       path = cacheDir ++ "/" ++
         cacheFilenameFor name url (currentExtensionFor os)) ∧
    (∀ (cacheDir : String) (cacheFiles : List String) (os name url : String)
       (fetch : Except String (List Nat)),
       cacheFiles.contains
         (cacheFilenameFor name url (currentExtensionFor os)) = true →
       downloadAndCachePlugin cacheDir cacheFiles os name url fetch =
         .ok (cacheDir ++ "/" ++
           cacheFilenameFor name url (currentExtensionFor os),
           cacheFiles, false)) := by
  refine ⟨?_, ?_, ?_⟩
  · intro url
    constructor
    · have h1 := bytesToHex_length (sha256Bytes (utf8Encode url))
      have h2 := sha256Bytes_length (utf8Encode url)
      simp only [sha256HexOfString]
      omega
    · exact bytesToHex_chars (sha256Bytes_lt (utf8Encode url))
  · intro cacheDir cacheFiles os name url fetch path files dl h
    unfold downloadAndCachePlugin at h
    dsimp only at h
    generalize cacheFilenameFor name url (currentExtensionFor os) = F at h ⊢
    by_cases hc : cacheFiles.contains F = true
    · rw [if_pos hc] at h
      cases h
      rfl
    · rw [if_neg hc] at h
      cases fetch with
      | error e => cases h
      | ok bytes =>
          by_cases hb : bytes.isEmpty = true
          · simp only [hb, if_pos] at h
            cases h
          · simp only [hb] at h
            simp only [Bool.false_eq_true, if_false] at h
            cases h
            rfl
  · intro cacheDir cacheFiles os name url fetch hc
    unfold downloadAndCachePlugin
    dsimp only
    generalize cacheFilenameFor name url (currentExtensionFor os) = F at hc ⊢
    rw [if_pos hc]

set_option maxRecDepth 100000 in
set_option maxHeartbeats 2000000 in
/-- C5 witness: for `https://example.com/p.so` on linux the filename is
`p_9bf1e17a.so`; with that file cached, the call skips the download and
returns the existing path unchanged. -/
theorem c5_cache_key_witness :
    cacheFilenameFor "p" "https://example.com/p.so"
      (currentExtensionFor "linux") = "p_9bf1e17a.so" ∧
    downloadAndCachePlugin ".marty/cache/plugins" ["p_9bf1e17a.so"] "linux"
      "p" "https://example.com/p.so" (.ok [0]) =
      .ok (".marty/cache/plugins/p_9bf1e17a.so", ["p_9bf1e17a.so"], false) := by
  refine ⟨by decide, ?_⟩
  have h := c5_cache_key_shape.2.2 ".marty/cache/plugins" ["p_9bf1e17a.so"]
    "linux" "p" "https://example.com/p.so" (.ok [0]) (by decide)
  exact h.trans (by decide)

lemma edgesForDeps_ok_iff (nodes : List String) (pn : String) (fi : Nat) :
    ∀ deps : List String,
      (∃ es, edgesForDeps nodes pn fi deps = .ok es) ↔
        ∀ d ∈ deps, d ∈ nodes := by
  intro deps
  induction deps with
  | nil => simp [edgesForDeps]
  | cons d rest ih =>
      constructor
      · rintro ⟨es, hes⟩
        intro x hx
        cases hL : lastIdxOf nodes d with
        | none =>
            simp only [edgesForDeps, hL] at hes
            exact Except.noConfusion hes
        | some idx =>
            simp only [edgesForDeps, hL] at hes
            rcases List.mem_cons.mp hx with rfl | hx'
            · exact (lastIdxOf_isSome_iff nodes x).mp (by rw [hL]; rfl)
            · refine ih.mp ?_ x hx'
              cases h2 : edgesForDeps nodes pn fi rest with
              | ok es' => exact ⟨es', rfl⟩
              | error e => simp only [h2] at hes; exact Except.noConfusion hes
      · intro hall
        have hd : d ∈ nodes := hall d (List.mem_cons_self _ _)
        obtain ⟨idx, hidx⟩ := lastIdxOf_mem hd
        obtain ⟨es, hes⟩ :=
          ih.mpr (fun x hx => hall x (List.mem_cons_of_mem _ hx))
        exact ⟨(fi, idx) :: es, by simp only [edgesForDeps, hidx, hes]⟩

lemma collectEdges_ok_iff (nodes : List String)
    (inferred : List InferredProject) :
    ∀ ps : List Project,
      (∃ es, collectEdges nodes inferred ps = .ok es) ↔
        ∀ p ∈ ps, ∀ d ∈ inferredDepsFor inferred p.name, d ∈ nodes := by
  intro ps
  induction ps with
  | nil => simp [collectEdges]
  | cons p rest ih =>
      constructor
      · rintro ⟨es, hes⟩
        intro q hq d hd
        simp only [collectEdges] at hes
        cases hf : inferred.find? (fun ip => ip.name = p.name) with
        | none =>
            simp only [hf] at hes
            rcases List.mem_cons.mp hq with rfl | hq'
            · simp only [inferredDepsFor, hf] at hd
              cases hd
            · exact ih.mp ⟨es, hes⟩ q hq' d hd
        | some ip =>
            simp only [hf] at hes
            cases he : edgesForDeps nodes p.name
                ((lastIdxOf nodes p.name).getD 0) ip.workspaceDependencies with
            | error e => simp only [he] at hes; exact Except.noConfusion hes
            | ok es1 =>
                simp only [he] at hes
                cases hr : collectEdges nodes inferred rest with
                | error e =>
                    simp only [hr] at hes; exact Except.noConfusion hes
                | ok es2 =>
                    rcases List.mem_cons.mp hq with rfl | hq'
                    · have hdf : inferredDepsFor inferred q.name =
                          ip.workspaceDependencies := by
                        simp [inferredDepsFor, hf]
                      rw [hdf] at hd
                      exact (edgesForDeps_ok_iff nodes q.name
                        ((lastIdxOf nodes q.name).getD 0)
                        ip.workspaceDependencies).mp ⟨es1, he⟩ d hd
                    · exact ih.mp ⟨es2, hr⟩ q hq' d hd
      · intro hall
        cases hf : inferred.find? (fun ip => ip.name = p.name) with
        | none =>
            obtain ⟨es, hes⟩ :=
              ih.mpr (fun q hq => hall q (List.mem_cons_of_mem _ hq))
            exact ⟨es, by simp only [collectEdges, hf, hes]⟩
        | some ip =>
            have hdeps : ∀ d ∈ ip.workspaceDependencies, d ∈ nodes := by
              intro d hd
              apply hall p (List.mem_cons_self _ _)
              simp [inferredDepsFor, hf, hd]
            obtain ⟨es1, he1⟩ := (edgesForDeps_ok_iff nodes p.name
              ((lastIdxOf nodes p.name).getD 0)
              ip.workspaceDependencies).mpr hdeps
            obtain ⟨es2, he2⟩ :=
              ih.mpr (fun q hq => hall q (List.mem_cons_of_mem _ hq))
            exact ⟨es1 ++ es2, by simp only [collectEdges, hf, he1, he2]⟩

lemma buildDependencyGraph_ok_iff (ps : List Project)
    (infs : List InferredProject) :
    (∃ g cycles, buildDependencyGraph ps infs = .ok (g, cycles)) ↔
      allDepsPresent ps infs := by
  unfold buildDependencyGraph allDepsPresent
  cases hce : collectEdges (ps.map (·.name)) infs ps with
  | error e =>
      simp only [hce]
      constructor
      · rintro ⟨g, cycles, h⟩
        exact Except.noConfusion h
      · intro hall
        obtain ⟨es, hes⟩ := (collectEdges_ok_iff _ _ ps).mpr hall
        rw [hce] at hes
        exact Except.noConfusion hes
  | ok es =>
      simp only [hce]
      constructor
      · intro _
        exact (collectEdges_ok_iff _ _ ps).mp ⟨_, hce⟩
      · intro _
        exact ⟨_, _, rfl⟩

lemma buildDependencyGraph_ok_elim {ps : List Project}
    {infs : List InferredProject} {g : Graph} {cycles : List (List String)}
    (h : buildDependencyGraph ps infs = .ok (g, cycles)) :
    g.nodes = ps.map (·.name) ∧ g.edges = g.edges ∧
      cycles = computeCycles g := by
  unfold buildDependencyGraph at h
  dsimp only at h
  cases hce : collectEdges (ps.map (·.name)) infs ps with
  | error e => rw [hce] at h; exact Except.noConfusion h
  | ok es =>
      rw [hce] at h
      cases h
      exact ⟨rfl, rfl, rfl⟩

lemma cycleOfComponent_sorted {g : Graph} {comp : List Nat}
    {c : List String} (h : cycleOfComponent g comp = some c) :
    c.Pairwise (· ≤ ·) := by
  unfold cycleOfComponent at h
  by_cases hl : comp.length > 1
  · rw [if_pos hl] at h
    cases h
    exact sortStrings_sorted _
  · rw [if_neg hl] at h
    cases comp with
    | nil => cases h
    | cons v rest =>
        cases rest with
        | nil =>
            by_cases hse : g.containsEdge v v = true
            · simp only [hse, if_true] at h
              cases h
              exact List.pairwise_singleton _ _
            · simp only [hse] at h
              simp at h
        | cons w rest2 => cases h

/-- C3: (1) `build_dependency_graph` succeeds exactly when every named
dependency resolves — cycles never make it fail; (2) every stored cycle is
a sorted member list; (3) whenever a stored cycle intersects the set of
names reachable from the targets, `get_recursive_dependencies` fails with
exactly the message `Circular dependency detected: ` followed by the
offending cycles, each rendered as its member list with the first member
repeated at the end joined by ` -> `, multiple cycles joined by `; `
(which is what `circularDependencyMessage` renders). -/
theorem c3_cycle_enforcement_policy :
    (∀ (ps : List Project) (infs : List InferredProject),
       (∃ g cycles, buildDependencyGraph ps infs = .ok (g, cycles)) ↔
         allDepsPresent ps infs) ∧
    (∀ (ps : List Project) (infs : List InferredProject) (g : Graph)
       (cycles : List (List String)),
       buildDependencyGraph ps infs = .ok (g, cycles) →
       ∀ c ∈ cycles, c.Pairwise (· ≤ ·)) ∧
    (∀ (ws : Workspace) (graph : Graph) (targets : List String)
       (startNodes : List Nat),
       ws.depGraph = some graph →
       resolveTargets graph.nodes targets = .ok startNodes →
       (∃ c ∈ ws.dependencyCycles, ∃ n ∈ c,
          n ∈ reachableNames graph startNodes) →
       getRecursiveDependencies ws targets =
         .error (circularDependencyMessage
           (relevantCycles ws.dependencyCycles
             (reachableNames graph startNodes)))) := by
  refine ⟨buildDependencyGraph_ok_iff, ?_, ?_⟩
  · intro ps infs g cycles hb c hc
    obtain ⟨-, -, hcy⟩ := buildDependencyGraph_ok_elim hb
    subst hcy
    unfold computeCycles at hc
    rw [mem_sortCycles, List.mem_filterMap] at hc
    obtain ⟨comp, -, hcomp⟩ := hc
    exact cycleOfComponent_sorted hcomp
  · intro ws graph targets startNodes h1 h2 h3
    obtain ⟨c, hc, n, hn, hreach⟩ := h3
    have hne : ws.dependencyCycles.isEmpty = false := by
      cases hd : ws.dependencyCycles with
      | nil => rw [hd] at hc; cases hc
      | cons x xs => rfl
    have hcrel : c ∈ relevantCycles ws.dependencyCycles
        (reachableNames graph startNodes) := by
      unfold relevantCycles
      rw [List.mem_filter]
      refine ⟨hc, ?_⟩
      rw [List.any_eq_true]
      exact ⟨n, hn, by simpa using hreach⟩
    have hrelne : (relevantCycles ws.dependencyCycles
        (reachableNames graph startNodes)).isEmpty = false := by
      cases hd : relevantCycles ws.dependencyCycles
          (reachableNames graph startNodes) with
      | nil => rw [hd] at hcrel; cases hcrel
      | cons x xs => rfl
    unfold getRecursiveDependencies
    rw [h1]
    simp only [h2, hne, hrelne, Bool.false_eq_true, if_false]

/-- C3 witness: the spec's S1 scenario `a` ↔ `b`. -/
theorem c3_cycle_enforcement_witness :
    allDepsPresent cycProjects cycInferred ∧
    (∃ g cycles, buildDependencyGraph cycProjects cycInferred =
      .ok (g, cycles)) ∧
    (["a", "b"] : List String).Pairwise (· ≤ ·) ∧
    getRecursiveDependencies cycWs ["a"] =
      .error "Circular dependency detected: a -> b -> a" := by
  refine ⟨by decide, ?_, ?_, ?_⟩
  · exact (c3_cycle_enforcement_policy.1 cycProjects cycInferred).mpr
      (by decide)
  · exact c3_cycle_enforcement_policy.2.1 cycProjects cycInferred cycGraph
      [["a", "b"]] rfl ["a", "b"] (List.mem_singleton.mpr rfl)
  · exact c3_cycle_enforcement_policy.2.2 cycWs cycGraph ["a"] [0] rfl rfl
      ⟨["a", "b"], by decide, "a", by decide, by decide⟩

/-- C9 counterexample: two explicit projects both named `a` do NOT produce
a duplicate-project-name error — graph construction succeeds, silently
keeping a node for each. -/
theorem c9_duplicate_names_build_ok :
    buildDependencyGraph dupProjects dupInferred =
      .ok (⟨["a", "a"], []⟩, []) :=
  rfl

/-- C9 (amended): explicit name collisions are not detected anywhere:
whenever every dependency resolves, graph construction succeeds and creates
one node per project list entry, duplicates included (dependency edges for
a colliding name all originate from its last-added node, per
`lastIdxOf`). -/
theorem c9_duplicate_names_silently_kept :
    ∀ (ps : List Project) (infs : List InferredProject),
      allDepsPresent ps infs →
      ∃ g cycles, buildDependencyGraph ps infs = .ok (g, cycles) ∧
        g.nodes = ps.map (·.name) := by
  intro ps infs h
  obtain ⟨g, cycles, hb⟩ := (buildDependencyGraph_ok_iff ps infs).mpr h
  obtain ⟨hn, -, -⟩ := buildDependencyGraph_ok_elim hb
  exact ⟨g, cycles, hb, hn⟩

/-- C9 witness: the amended theorem on the duplicate fixture. -/
theorem c9_duplicate_names_witness :
    allDepsPresent dupProjects dupInferred ∧
    ∃ g cycles, buildDependencyGraph dupProjects dupInferred =
      .ok (g, cycles) ∧ g.nodes = ["a", "a"] := by
  refine ⟨by decide, ?_⟩
  obtain ⟨g, cycles, hb, hn⟩ :=
    c9_duplicate_names_silently_kept dupProjects dupInferred (by decide)
  exact ⟨g, cycles, hb, hn⟩

/-- C4: tag compatibility.  (1) A task file with no tags is compatible
with every project; with tags declared: (2) a tracked project without a
`marty.yml` is compatible, (3) a project whose manifest declares no tags is
incompatible, (4) otherwise compatibility holds exactly when some task-file
tag is among the project's tags; and (5) when the filtered project is
absent from the compatible list, `resolve_task_execution_plan` fails with
the tag-mismatch error naming project and task. -/
theorem c4_tag_filtering :
    (∀ (ws : Workspace) (p : String) (cfg : TasksFileConfig),
       cfg.tags.getD [] = [] →
       isProjectCompatibleWithTask ws p cfg = true) ∧
    (∀ (ws : Workspace) (p : String) (cfg : TasksFileConfig)
       (proj : Project),
       cfg.tags.getD [] ≠ [] →
       ws.projects.find? (fun q => q.name = p) = some proj →
       proj.manifest = none →
       isProjectCompatibleWithTask ws p cfg = true) ∧
    (∀ (ws : Workspace) (p : String) (cfg : TasksFileConfig)
       (proj : Project) (m : Manifest),
       cfg.tags.getD [] ≠ [] →
       ws.projects.find? (fun q => q.name = p) = some proj →
       proj.manifest = some m →
       m.tags.getD [] = [] →
       isProjectCompatibleWithTask ws p cfg = false) ∧
    (∀ (ws : Workspace) (p : String) (cfg : TasksFileConfig)
       (proj : Project) (m : Manifest),
       cfg.tags.getD [] ≠ [] →
       ws.projects.find? (fun q => q.name = p) = some proj →
       proj.manifest = some m →
       m.tags.getD [] ≠ [] →
       (isProjectCompatibleWithTask ws p cfg = true ↔
         ∃ t ∈ cfg.tags.getD [], t ∈ m.tags.getD [])) ∧
    (∀ (ws : Workspace) (cfg : TasksFileConfig) (taskName pf : String)
       (lst : List String),
       taskExists ws cfg taskName (some pf) = .ok true →
       ws.projects.any (fun q => q.name = pf) = true →
       getRecursiveDependencies ws [pf] = .ok lst →
       (lst.filter
         (fun n => isProjectCompatibleWithTask ws n cfg)).contains pf =
           false →
       resolveTaskExecutionPlan ws cfg taskName (some pf) =
         .error (.task ("Project '" ++ pf ++
           "' is not compatible with task '" ++ taskName ++
           "' (tag mismatch)"))) := by
  have hempty : ∀ (l : List String), l ≠ [] → l.isEmpty = false := by
    intro l hl
    cases l with
    | nil => exact absurd rfl hl
    | cons x xs => rfl
  refine ⟨?_, ?_, ?_, ?_, ?_⟩
  · intro ws p cfg h
    simp [isProjectCompatibleWithTask, h]
  · intro ws p cfg proj hne hfind hman
    simp [isProjectCompatibleWithTask, hempty _ hne, hfind, hman]
  · intro ws p cfg proj m hne hfind hman hmt
    simp [isProjectCompatibleWithTask, hempty _ hne, hfind, hman, hmt]
  · intro ws p cfg proj m hne hfind hman hmt
    simp only [isProjectCompatibleWithTask, hempty _ hne, hfind, hman,
      hempty _ hmt, Bool.false_eq_true, if_false]
    rw [List.any_eq_true]
    constructor
    · rintro ⟨t, ht, hin⟩
      rw [List.any_eq_true] at hin
      obtain ⟨pt, hpt, heq⟩ := hin
      rw [of_decide_eq_true heq] at hpt
      exact ⟨t, ht, hpt⟩
    · rintro ⟨t, ht, hin⟩
      refine ⟨t, ht, ?_⟩
      rw [List.any_eq_true]
      exact ⟨t, hin, by simp⟩
  · intro ws cfg taskName pf lst hex hany hrec hcontains
    simp only [resolveTaskExecutionPlan, hex, hany, if_true, hrec,
      hcontains, Bool.false_eq_true, if_false]

/-- C4 witness: the spec's S5 scenario — project `a` (tags `[rust]`)
matches the `rust`-tagged task file, and `run b:test` fails with the
tag-mismatch error. -/
theorem c4_tag_filtering_witness :
    (isProjectCompatibleWithTask tagWs "a" tagCfg = true ↔
      ∃ t ∈ ["rust"], t ∈ ["rust"]) ∧
    resolveTaskExecutionPlan tagWs tagCfg "test" (some "b") =
      .error (.task "Project 'b' is not compatible with task 'test' (tag mismatch)") := by
  constructor
  · exact c4_tag_filtering.2.2.2.1 tagWs "a" tagCfg
      ⟨"a", some ⟨some ["rust"], ["test"]⟩⟩ ⟨some ["rust"], ["test"]⟩
      (by decide) rfl rfl (by decide)
  · exact c4_tag_filtering.2.2.2.2 tagWs tagCfg "test" "b" ["b"]
      rfl rfl rfl rfl

lemma edgesForDeps_from (nodes : List String) (pn : String) (fi : Nat) :
    ∀ (deps : List String) (es : List (Nat × Nat)),
      edgesForDeps nodes pn fi deps = .ok es → ∀ e ∈ es, e.1 = fi := by
  intro deps
  induction deps with
  | nil =>
      intro es h e he
      cases h
      cases he
  | cons d rest ih =>
      intro es h e he
      cases hL : lastIdxOf nodes d with
      | none => simp only [edgesForDeps, hL] at h; exact Except.noConfusion h
      | some idx =>
          simp only [edgesForDeps, hL] at h
          cases h2 : edgesForDeps nodes pn fi rest with
          | error e2 => simp only [h2] at h; exact Except.noConfusion h
          | ok es' =>
              simp only [h2] at h
              cases h
              rcases List.mem_cons.mp he with rfl | he'
              · rfl
              · exact ih es' h2 e he'

lemma collectEdges_from (nodes : List String)
    (inferred : List InferredProject) :
    ∀ (ps : List Project) (es : List (Nat × Nat)),
      collectEdges nodes inferred ps = .ok es →
      (∀ p ∈ ps, p.name ∈ nodes) →
      ∀ e ∈ es, lastIdxOf nodes (nodes.getD e.1 "") = some e.1 := by
  intro ps
  induction ps with
  | nil =>
      intro es h hnames e he
      cases h
      cases he
  | cons p rest ih =>
      intro es h hnames e he
      simp only [collectEdges] at h
      cases hf : inferred.find? (fun ip => ip.name = p.name) with
      | none =>
          simp only [hf] at h
          exact ih es h (fun q hq => hnames q (List.mem_cons_of_mem _ hq)) e he
      | some ip =>
          simp only [hf] at h
          cases he1 : edgesForDeps nodes p.name
              ((lastIdxOf nodes p.name).getD 0) ip.workspaceDependencies with
          | error e1 => simp only [he1] at h; exact Except.noConfusion h
          | ok es1 =>
              simp only [he1] at h
              cases he2 : collectEdges nodes inferred rest with
              | error e2 => simp only [he2] at h; exact Except.noConfusion h
              | ok es2 =>
                  simp only [he2] at h
                  cases h
                  rcases List.mem_append.mp he with he' | he'
                  · have hfrom := edgesForDeps_from nodes p.name _ _ es1 he1 e he'
                    obtain ⟨j, hj⟩ :=
                      lastIdxOf_mem (hnames p (List.mem_cons_self _ _))
                    rw [hj] at hfrom
                    simp only [Option.getD_some] at hfrom
                    obtain ⟨-, hget⟩ := lastIdxOf_getD hj
                    rw [hfrom, hget, hj]
                  · exact ih es2 he2
                      (fun q hq => hnames q (List.mem_cons_of_mem _ hq)) e he'

lemma buildDependencyGraph_collectEdges {ps : List Project}
    {infs : List InferredProject} {g : Graph} {cycles : List (List String)}
    (h : buildDependencyGraph ps infs = .ok (g, cycles)) :
    collectEdges (ps.map (·.name)) infs ps = .ok g.edges := by
  unfold buildDependencyGraph at h
  dsimp only at h
  cases hce : collectEdges (ps.map (·.name)) infs ps with
  | error e => rw [hce] at h; exact Except.noConfusion h
  | ok es => rw [hce] at h; cases h; rfl

lemma buildDependencyGraph_edgesFromCanonical {ps : List Project}
    {infs : List InferredProject} {g : Graph} {cycles : List (List String)}
    (h : buildDependencyGraph ps infs = .ok (g, cycles)) :
    edgesFromCanonical g := by
  intro e he
  obtain ⟨hn, -, -⟩ := buildDependencyGraph_ok_elim h
  have hce := buildDependencyGraph_collectEdges h
  rw [← hn] at hce
  refine collectEdges_from g.nodes infs ps g.edges hce ?_ e he
  intro p hp
  rw [hn]
  exact List.mem_map_of_mem _ hp

lemma dedupFirstAux_eq_self :
    ∀ (xs seen : List String), xs.Nodup → (∀ x ∈ xs, x ∉ seen) →
      dedupFirstAux seen xs = xs := by
  intro xs
  induction xs with
  | nil => intro seen _ _; rfl
  | cons x rest ih =>
      intro seen hnd hsep
      have hcf : seen.contains x = false := by
        by_contra hc
        rw [Bool.not_eq_false] at hc
        exact hsep x (List.mem_cons_self _ _) (by simpa using hc)
      simp only [dedupFirstAux, hcf, Bool.false_eq_true, if_false]
      congr 1
      refine ih (x :: seen) (List.Nodup.of_cons hnd) ?_
      intro y hy
      simp only [List.mem_cons]
      rintro (rfl | hys)
      · exact (List.nodup_cons.mp hnd).1 hy
      · exact hsep y (List.mem_cons_of_mem _ hy) hys

lemma dedupFirst_eq_self {xs : List String} (h : xs.Nodup) :
    dedupFirst xs = xs :=
  dedupFirstAux_eq_self xs [] h (by simp)

lemma scanParentsInner_spec (g : Graph) (hE : edgesFromCanonical g)
    (projects A : List String) (nodeIdx : Nat) :
    ∀ (parents : List Nat) (acc : List String × List Nat),
      (A ++ acc.1).Nodup →
      (∀ n ∈ A ++ acc.1, ∃ i, lastIdxOf g.nodes n = some i ∧ i ∈ acc.2) →
      (A ++ (scanParentsInner g projects nodeIdx parents acc).1).Nodup ∧
      (∀ n ∈ A ++ (scanParentsInner g projects nodeIdx parents acc).1,
        ∃ i, lastIdxOf g.nodes n = some i ∧
          i ∈ (scanParentsInner g projects nodeIdx parents acc).2) ∧
      (∀ i ∈ acc.2, i ∈ (scanParentsInner g projects nodeIdx parents acc).2) ∧
      (∀ n ∈ (scanParentsInner g projects nodeIdx parents acc).1,
        n ∈ acc.1 ∨ n ∈ projects) := by
  intro parents
  induction parents with
  | nil =>
      intro acc hnd hkey
      exact ⟨hnd, hkey, fun i hi => hi, fun n hn => Or.inl hn⟩
  | cons parent rest ih =>
      intro acc hnd hkey
      by_cases hce : g.containsEdge parent nodeIdx = true
      · simp only [scanParentsInner, hce, if_true]
        by_cases hg : (projects.contains (g.nodes.getD parent "") &&
            !(acc.2.contains parent)) = true
        · rw [if_pos hg]
          have hgs := Bool.and_eq_true_iff.mp hg
          have hmemproj : g.nodes.getD parent "" ∈ projects := by
            simpa using hgs.1
          have hnotvis : parent ∉ acc.2 := by simpa using hgs.2
          have hcanon : lastIdxOf g.nodes (g.nodes.getD parent "") =
              some parent := by
            have : ∃ e ∈ g.edges, e.1 = parent ∧ e.2 = nodeIdx := by
              have := hce
              unfold Graph.containsEdge at this
              rw [List.any_eq_true] at this
              obtain ⟨e, he, hdec⟩ := this
              exact ⟨e, he, by simpa using hdec⟩
            obtain ⟨e, he, h1, h2⟩ := this
            have := hE e he
            rw [h1] at this
            exact this
          have hfresh : g.nodes.getD parent "" ∉ A ++ acc.1 := by
            intro hmem
            obtain ⟨i, hi, hivis⟩ := hkey _ hmem
            rw [hcanon] at hi
            cases hi
            exact hnotvis hivis
          have hnd' : (A ++ (acc.1 ++ [g.nodes.getD parent ""])).Nodup := by
            rw [← List.append_assoc]
            rw [List.nodup_append]
            refine ⟨hnd, List.nodup_singleton _, ?_⟩
            intro a ha
            simp only [List.mem_singleton]
            intro hb
            rw [hb] at ha
            exact hfresh ha
          have hkey' : ∀ n ∈ A ++ (acc.1 ++ [g.nodes.getD parent ""]),
              ∃ i, lastIdxOf g.nodes n = some i ∧ i ∈ parent :: acc.2 := by
            intro n hn
            rw [← List.append_assoc] at hn
            rcases List.mem_append.mp hn with hn' | hn'
            · obtain ⟨i, hi, hivis⟩ := hkey n hn'
              exact ⟨i, hi, List.mem_cons_of_mem _ hivis⟩
            · rw [List.mem_singleton] at hn'
              subst hn'
              exact ⟨parent, hcanon, List.mem_cons_self _ _⟩
          obtain ⟨r1, r2, r3, r4⟩ := ih (acc.1 ++ [g.nodes.getD parent ""],
            parent :: acc.2) hnd' hkey'
          refine ⟨r1, r2, ?_, ?_⟩
          · intro i hi
            exact r3 i (List.mem_cons_of_mem _ hi)
          · intro n hn
            rcases r4 n hn with hn' | hn'
            · rcases List.mem_append.mp hn' with h | h
              · exact Or.inl h
              · rw [List.mem_singleton] at h
                subst h
                exact Or.inr hmemproj
            · exact Or.inr hn'
        · rw [if_neg hg]
          exact ih acc hnd hkey
      · simp only [scanParentsInner]
        rw [if_neg hce]
        exact ih acc hnd hkey

lemma scanParentsGo_spec (g : Graph) (hE : edgesFromCanonical g)
    (projects A : List String) :
    ∀ (current : List String) (acc : List String × List Nat),
      (A ++ acc.1).Nodup →
      (∀ n ∈ A ++ acc.1, ∃ i, lastIdxOf g.nodes n = some i ∧ i ∈ acc.2) →
      (A ++ (scanParentsGo g projects current acc).1).Nodup ∧
      (∀ n ∈ A ++ (scanParentsGo g projects current acc).1,
        ∃ i, lastIdxOf g.nodes n = some i ∧
          i ∈ (scanParentsGo g projects current acc).2) ∧
      (∀ i ∈ acc.2, i ∈ (scanParentsGo g projects current acc).2) ∧
      (∀ n ∈ (scanParentsGo g projects current acc).1,
        n ∈ acc.1 ∨ n ∈ projects) := by
  intro current
  induction current with
  | nil =>
      intro acc hnd hkey
      exact ⟨hnd, hkey, fun i hi => hi, fun n hn => Or.inl hn⟩
  | cons project rest ih =>
      intro acc hnd hkey
      cases hL : lastIdxOf g.nodes project with
      | none =>
          simp only [scanParentsGo, hL]
          exact ih acc hnd hkey
      | some nodeIdx =>
          simp only [scanParentsGo, hL]
          obtain ⟨s1, s2, s3, s4⟩ := scanParentsInner_spec g hE projects A
            nodeIdx (List.range g.nodes.length) acc hnd hkey
          obtain ⟨r1, r2, r3, r4⟩ := ih
            (scanParentsInner g projects nodeIdx
              (List.range g.nodes.length) acc) s1 s2
          refine ⟨r1, r2, ?_, ?_⟩
          · intro i hi
            exact r3 i (s3 i hi)
          · intro n hn
            rcases r4 n hn with hn' | hn'
            · exact s4 n hn'
            · exact Or.inr hn'

lemma seedLevelGo_spec (g : Graph) :
    ∀ (ps : List String) (acc : List String × List Nat),
      (acc.1 ++ ps).Nodup →
      (∀ n ∈ acc.1, ∃ i, lastIdxOf g.nodes n = some i ∧ i ∈ acc.2) →
      (seedLevelGo g ps acc).1.Nodup ∧
      (∀ n ∈ (seedLevelGo g ps acc).1,
        ∃ i, lastIdxOf g.nodes n = some i ∧ i ∈ (seedLevelGo g ps acc).2) ∧
      (∀ i ∈ acc.2, i ∈ (seedLevelGo g ps acc).2) ∧
      (∀ n ∈ (seedLevelGo g ps acc).1, n ∈ acc.1 ∨ n ∈ ps) := by
  intro ps
  induction ps with
  | nil =>
      intro acc hnd hkey
      refine ⟨by simpa using hnd, hkey, fun i hi => hi,
        fun n hn => Or.inl hn⟩
  | cons project rest ih =>
      intro acc hnd hkey
      have hndrest : (acc.1 ++ rest).Nodup :=
        List.Nodup.sublist
          (List.Sublist.append_left (List.sublist_cons_self project rest) acc.1) hnd
      cases hL : lastIdxOf g.nodes project with
      | none =>
          simp only [seedLevelGo, hL]
          obtain ⟨r1, r2, r3, r4⟩ := ih acc hndrest hkey
          refine ⟨r1, r2, r3, ?_⟩
          intro n hn
          rcases r4 n hn with h | h
          · exact Or.inl h
          · exact Or.inr (List.mem_cons_of_mem _ h)
      | some idx =>
          by_cases hdeg : (g.neighborsOut idx).length = 0
          · simp only [seedLevelGo, hL]
            rw [if_pos hdeg]
            have hnd' : ((acc.1 ++ [project]) ++ rest).Nodup := by
              rw [List.append_assoc]
              simpa using hnd
            have hkey' : ∀ n ∈ acc.1 ++ [project],
                ∃ i, lastIdxOf g.nodes n = some i ∧ i ∈ idx :: acc.2 := by
              intro n hn
              rcases List.mem_append.mp hn with hn' | hn'
              · obtain ⟨i, hi, hivis⟩ := hkey n hn'
                exact ⟨i, hi, List.mem_cons_of_mem _ hivis⟩
              · rw [List.mem_singleton] at hn'
                subst hn'
                exact ⟨idx, hL, List.mem_cons_self _ _⟩
            obtain ⟨r1, r2, r3, r4⟩ :=
              ih (acc.1 ++ [project], idx :: acc.2) hnd' hkey'
            refine ⟨r1, r2, ?_, ?_⟩
            · intro i hi
              exact r3 i (List.mem_cons_of_mem _ hi)
            · intro n hn
              rcases r4 n hn with h | h
              · rcases List.mem_append.mp h with h' | h'
                · exact Or.inl h'
                · rw [List.mem_singleton] at h'
                  subst h'
                  exact Or.inr (List.mem_cons_self _ _)
              · exact Or.inr (List.mem_cons_of_mem _ h)
          · simp only [seedLevelGo, hL]
            rw [if_neg hdeg]
            obtain ⟨r1, r2, r3, r4⟩ := ih acc hndrest hkey
            refine ⟨r1, r2, r3, ?_⟩
            intro n hn
            rcases r4 n hn with h | h
            · exact Or.inl h
            · exact Or.inr (List.mem_cons_of_mem _ h)

lemma levelLoop_spec (g : Graph) (hE : edgesFromCanonical g)
    (projects : List String) :
    ∀ (fuel : Nat) (current : List String) (visited : List Nat)
      (levels : List (List String)),
      (levels.flatten ++ current).Nodup →
      (∀ n ∈ levels.flatten ++ current,
        ∃ i, lastIdxOf g.nodes n = some i ∧ i ∈ visited) →
      (∀ n ∈ levels.flatten ++ current, n ∈ projects) →
      (levelLoop g projects fuel current visited levels).flatten.Nodup ∧
      (∀ n ∈ (levelLoop g projects fuel current visited levels).flatten,
        n ∈ projects) := by
  intro fuel
  induction fuel with
  | zero =>
      intro current visited levels hnd hkey hmem
      constructor
      · exact List.Nodup.sublist (List.sublist_append_left _ _) hnd
      · intro n hn
        exact hmem n (List.mem_append_left _ hn)
  | succ f ih =>
      intro current visited levels hnd hkey hmem
      by_cases hcur : current.isEmpty = true
      · simp only [levelLoop, hcur, if_true]
        constructor
        · exact List.Nodup.sublist (List.sublist_append_left _ _) hnd
        · intro n hn
          exact hmem n (List.mem_append_left _ hn)
      · simp only [levelLoop]
        rw [if_neg hcur]
        obtain ⟨s1, s2, s3, s4⟩ := scanParentsGo_spec g hE projects
          (levels.flatten ++ current) current ([], visited)
          (by simpa using hnd) (by simpa using hkey)
        have hflat : (levels ++ [current]).flatten =
            levels.flatten ++ current := by
          simp
        have hnextnd : (scanParentsGo g projects current ([], visited)).1.Nodup :=
          List.Nodup.of_append_right s1
        have hnd2 : ((levels ++ [current]).flatten ++
            (scanParentsGo g projects current ([], visited)).1).Nodup := by
          rw [hflat]
          exact s1
        have hkey2 : ∀ n ∈ (levels ++ [current]).flatten ++
            (scanParentsGo g projects current ([], visited)).1,
            ∃ i, lastIdxOf g.nodes n = some i ∧
              i ∈ (scanParentsGo g projects current ([], visited)).2 := by
          rw [hflat]
          exact s2
        have hmem2 : ∀ n ∈ (levels ++ [current]).flatten ++
            (scanParentsGo g projects current ([], visited)).1,
            n ∈ projects := by
          rw [hflat]
          intro n hn
          rcases List.mem_append.mp hn with hn' | hn'
          · exact hmem n hn'
          · rcases s4 n hn' with h | h
            · cases h
            · exact h
        have := ih (dedupFirst (scanParentsGo g projects current ([], visited)).1)
          (scanParentsGo g projects current ([], visited)).2
          (levels ++ [current])
          (by rw [dedupFirst_eq_self hnextnd]; exact hnd2)
          (by rw [dedupFirst_eq_self hnextnd]; exact hkey2)
          (by rw [dedupFirst_eq_self hnextnd]; exact hmem2)
        simpa [scanParents] using this

/-- C10 counterexample: with the duplicated input list `["a", "a"]` the
seed loop pushes `a` twice (its visited-set insert does not guard the
seeding pass, `dependencies.rs` lines 34-41), so `a` is scheduled twice. -/
theorem c10_duplicate_input_scheduled_twice :
    buildDependencyGraph [⟨"a", none⟩] [⟨"a", []⟩] =
      .ok (⟨["a"], []⟩, []) ∧
    groupByDependencyLevels soloWs ["a", "a"] = .ok [["a", "a"]] :=
  ⟨rfl, rfl⟩

/-- C10 (amended): for a workspace whose graph was built by
`build_dependency_graph` and an input list WITHOUT duplicate names, the
returned levels contain each name at most once across all levels, and
every name in any level comes from the input list. -/
theorem c10_levels_nodup_and_subset :
    ∀ (ps : List Project) (infs : List InferredProject) (g : Graph)
      (cycles : List (List String)) (ws : Workspace)
      (targets : List String) (levels : List (List String)),
      buildDependencyGraph ps infs = .ok (g, cycles) →
      ws.depGraph = some g →
      targets.Nodup →
      groupByDependencyLevels ws targets = .ok levels →
      levels.flatten.Nodup ∧
        ∀ level ∈ levels, ∀ n ∈ level, n ∈ targets := by
  intro ps infs g cycles ws targets levels hb hg hnd hgroup
  have hE := buildDependencyGraph_edgesFromCanonical hb
  simp only [groupByDependencyLevels, hg, Except.ok.injEq] at hgroup
  obtain ⟨d1, d2, d3, d4⟩ := seedLevelGo_spec g targets ([], [])
    (by simpa using hnd) (by intro n hn; cases hn)
  obtain ⟨l1, l2⟩ := levelLoop_spec g hE targets (g.nodes.length + 2)
    (seedLevel g targets).1 (seedLevel g targets).2 []
    (by simpa [seedLevel] using d1)
    (by simpa [seedLevel] using d2)
    (by
      intro n hn
      simp only [List.flatten_nil, List.nil_append] at hn
      rcases d4 n (by simpa [seedLevel] using hn) with h | h
      · cases h
      · exact h)
  subst hgroup
  constructor
  · exact ((List.reverse_perm _).flatten.nodup_iff).mpr l1
  · intro level hlevel n hn
    apply l2
    rw [List.mem_flatten]
    exact ⟨level, by simpa using hlevel, hn⟩

/-- C10 witness: the amended theorem on the S4 chain. -/
theorem c10_levels_witness :
    (["root", "mid", "leaf"] : List String).Nodup ∧
    ([["root"], ["mid"], ["leaf"]] : List (List String)).flatten.Nodup ∧
    ∀ level ∈ [["root"], ["mid"], ["leaf"]],
      ∀ n ∈ level, n ∈ (["root", "mid", "leaf"] : List String) := by
  have h := c10_levels_nodup_and_subset lmrProjects lmrInferred lmrGraph []
    lmrWs ["root", "mid", "leaf"] [["root"], ["mid"], ["leaf"]]
    rfl rfl (by decide) rfl
  exact ⟨by decide, h.1, h.2⟩

end Marty
